import Mathlib

/-!
Verification of the metadata-extraction engine of `autolysis`
(`autolysis/meta.py`) against its natural-language specification.

The Python code is shallowly embedded: pure logic is transcribed into
executable Lean definitions; interactions with the outside world (the file
system, the `pandas` readers, `hashlib`, HTTP) are represented by explicit
oracle fields or parameters that record exactly the information the Python
code observes.  Machine integers are `Nat` with explicit `% 2 ^ w` where
overflow matters; fallible code returns `Option`/`Except`.
-/

namespace Autolysis

/-! ## Path utilities (`os.path.split` / `os.path.splitext`)

`guess_format` computes `base, ext = os.path.splitext(path)` and then
`ext = ext.lower()[1:]`.  `filename` computes
`name, ext = os.path.splitext(os.path.split(path)[-1])`.
We model these over `List Char`, following `posixpath`:
the basename is everything after the last `'/'`; the extension is the
suffix starting at the last `'.'` of the basename, provided some non-dot
character of the basename occurs strictly before that dot (so `.bashrc`
and `..x` have no extension). -/

/-- Everything after the last `'/'` of a path: `os.path.split(p)[-1]`. -/
def basenameChars (p : List Char) : List Char :=
  (p.reverse.takeWhile (· ≠ '/')).reverse

/-- The extension of a path *without* its leading dot and lower-cased:
models `os.path.splitext(p)[1].lower()[1:]` from `guess_format`.
Returns `[]` when Python would produce the empty string. -/
def extLowerChars (p : List Char) : List Char :=
  let b := basenameChars p
  let afterRev := b.reverse.takeWhile (· ≠ '.')
  if afterRev.length = b.length then []
  else if (b.take (b.length - afterRev.length - 1)).any (· ≠ '.') then
    afterRev.reverse.map Char.toLower
  else []

/-- The basename split before the extension: `os.path.splitext(os.path.split(p)[-1])[0]`. -/
def stemChars (p : List Char) : List Char :=
  let b := basenameChars p
  let afterRev := b.reverse.takeWhile (· ≠ '.')
  if afterRev.length = b.length then b
  else if (b.take (b.length - afterRev.length - 1)).any (· ≠ '.') then
    b.take (b.length - afterRev.length - 1)
  else b

/-- The extension *with* its leading dot, not lower-cased:
`os.path.splitext(p)[1]`, as used by `filename`. -/
def extWithDotChars (p : List Char) : List Char :=
  let b := basenameChars p
  let afterRev := b.reverse.takeWhile (· ≠ '.')
  if afterRev.length = b.length then []
  else if (b.take (b.length - afterRev.length - 1)).any (· ≠ '.') then
    '.' :: afterRev.reverse
  else []

/-! ## `_ext_map` — known extensions and the formats they map to -/

/-- The `_ext_map` table of `meta.py`, keyed by the lower-cased extension
without its dot. -/
def ext_map : String → Option String
  | "7z" => some "7z"
  | "7zip" => some "7z"
  | "bz2" => some "bz2"
  | "csv" => some "csv"
  | "db" => some "sqlite3"
  | "dta" => some "dta"
  | "gz" => some "gz"
  | "h5" => some "hdf5"
  | "hdf5" => some "hdf5"
  | "json" => some "json"
  | "rar" => some "rar"
  | "sqlite3" => some "sqlite3"
  | "tar" => some "tar"
  | "xls" => some "xls"
  | "xlsx" => some "xlsx"
  | "xz" => some "xz"
  | "zip" => some "zip"
  | _ => none

/-! ## File model

`guess_format` observes: the path (for its extension), whether the path is
a directory, the first 20 bytes of the file, the zip member list (only in
the `PK` branch), whether `read_json` succeeds, and the shape of the first
chunk that `read_csv_encoded` produces.  A `FileModel` records exactly
these observations. -/

structure FileModel where
  /-- The path passed to `guess_format`. -/
  path : String
  /-- `os.path.isdir(path)`. -/
  isDir : Bool
  /-- The first `min(20, size)` bytes of the file (`handle.read(20)`). -/
  head : List Nat
  /-- `ZipFile(path).namelist()`; only consulted in the `PK` branch. -/
  zipNames : List String
  /-- Whether `read_json(path)` succeeds.  A failure stands for the
  `ValueError` / `PandasError` that `guess_format` catches. -/
  jsonOk : Bool
  /-- `(len(chunk), len(chunk.columns))` for the first 1000-row chunk of
  `read_csv_encoded(path, chunksize=1000)`; `none` when that raises. -/
  csvChunk : Option (Nat × Nat)

/-- Byte prefix of the `7z` signature. -/
def sig7z : List Nat := [0x37, 0x7a, 0xbc, 0xaf, 0x27, 0x1c]

/-- Byte prefix of the `rar` signature. -/
def sigRar : List Nat := [0x52, 0x61, 0x72, 0x21, 0x1a, 0x07, 0x00]

/-- Byte prefix of the `xz` signature. -/
def sigXz : List Nat := [0xfd, 0x37, 0x7a, 0x58, 0x5a, 0x00]

/-- Byte prefix of the `sqlite3` signature: `SQLite format 3\x00`. -/
def sigSqlite : List Nat :=
  [0x53, 0x51, 0x4c, 0x69, 0x74, 0x65, 0x20, 0x66, 0x6f, 0x72, 0x6d, 0x61,
   0x74, 0x20, 0x33, 0x00]

/-- Byte prefix of the legacy `xls` (OLE compound document) signature. -/
def sigXls : List Nat := [0xd0, 0xcf, 0x11, 0xe0, 0xa1, 0xb1, 0x1a, 0xe1]

/-- Byte prefix of the `hdf5` signature. -/
def sigHdf5 : List Nat := [0x89, 0x48, 0x44, 0x46, 0x0d, 0x0a, 0x1a, 0x0a]

/-- Byte prefix of the modern Stata signature: `<stata_dta>`. -/
def sigDtaText : List Nat :=
  [0x3c, 0x73, 0x74, 0x61, 0x74, 0x61, 0x5f, 0x64, 0x74, 0x61, 0x3e]

/-- Byte prefix `ustar` of one `tar` variant. -/
def sigUstar : List Nat := [0x75, 0x73, 0x74, 0x61, 0x72]

/-- Byte prefix `./PaxHeaders` of the other `tar` variant. -/
def sigPax : List Nat :=
  [0x2e, 0x2f, 0x50, 0x61, 0x78, 0x48, 0x65, 0x61, 0x64, 0x65, 0x72, 0x73]

/-- Byte prefix `PK` shared by zip-family files. -/
def sigPK : List Nat := [0x50, 0x4b]

/-- Byte prefix of the `gz` signature. -/
def sigGz : List Nat := [0x1f, 0x8b]

/-- Byte prefix of the `bz2` signature: `BZh`. -/
def sigBz2 : List Nat := [0x42, 0x5a, 0x68]

/-- The `filename.startswith('xl/')` probe applied to zip member names,
stated over the underlying character list so that it evaluates by kernel
reduction. -/
def startsWithXl (n : String) : Bool :=
  ['x', 'l', '/'].isPrefixOf n.data

/-- The `head.startswith(b'PK') and head[2:4] in {...}` test of the zip
branch. -/
def zipSigMatch (head : List Nat) : Bool :=
  match head with
  | b0 :: b1 :: b2 :: b3 :: _ =>
    b0 = 0x50 ∧ b1 = 0x4b ∧
      ((b2 = 0x03 ∧ b3 = 0x04) ∨ (b2 = 0x05 ∧ b3 = 0x06) ∨
        (b2 = 0x07 ∧ b3 = 0x08))
  | _ => false

/-- The legacy binary Stata header test:
`b'\x71' <= head[0:1] <= b'\x73' and head[1:2] in {b'\x01', b'\x02'} and
head[2:4] == b'\x01\x00'`. -/
def dtaBinMatch (head : List Nat) : Bool :=
  match head with
  | b0 :: b1 :: b2 :: b3 :: _ =>
    0x71 ≤ b0 ∧ b0 ≤ 0x73 ∧ (b1 = 0x01 ∨ b1 = 0x02) ∧ b2 = 0x01 ∧ b3 = 0x00
  | _ => false

/-- The binary-signature cascade of `guess_format`, in source order,
from the `7z` test down to the legacy Stata test.  The zip branch consults
the member list to disambiguate `xlsx` from `zip`. -/
def signatureFormat (head : List Nat) (zipNames : List String) : Option String :=
  if sig7z.isPrefixOf head then some "7z"
  else if zipSigMatch head then
    if zipNames.any startsWithXl then some "xlsx" else some "zip"
  else if sigRar.isPrefixOf head then some "rar"
  else if sigUstar.isPrefixOf head ∨ sigPax.isPrefixOf head then some "tar"
  else if sigXz.isPrefixOf head then some "xz"
  else if sigGz.isPrefixOf head then some "gz"
  else if sigBz2.isPrefixOf head then some "bz2"
  else if sigSqlite.isPrefixOf head then some "sqlite3"
  else if sigXls.isPrefixOf head then some "xls"
  else if sigHdf5.isPrefixOf head then some "hdf5"
  else if sigDtaText.isPrefixOf head then some "dta"
  else if dtaBinMatch head then some "dta"
  else none

/-- Model of `guess_format(path, ignore_ext)`.  Mirrors the source order:
extension lookup, directory test, binary signatures, JSON probe, CSV probe
(`>= 1` row and `>= 2` columns), and finally the implicit `None`. -/
def guess_format (m : FileModel) (ignore_ext : Bool) : Option String :=
  let ext := extLowerChars m.path.data
  if ext ≠ [] ∧ (ext_map (String.mk ext)).isSome ∧ ¬ignore_ext then
    ext_map (String.mk ext)
  else if m.isDir then some "dir"
  else match signatureFormat m.head m.zipNames with
    | some fmt => some fmt
    | none =>
      if m.jsonOk then some "json"
      else match m.csvChunk with
        | some (rows, cols) => if 1 ≤ rows ∧ 2 ≤ cols then some "csv" else none
        | none => none

/-- The leading-byte signature associated with each format tag in the
`guess_format` table.  `zip`'s leading-byte signature (`PK` plus a version
marker) is shared with `xlsx`: the code tells them apart not by leading
bytes but by probing the member list. -/
def byteSigMatch (t : String) (head : List Nat) : Bool :=
  match t with
  | "7z" => sig7z.isPrefixOf head
  | "zip" => zipSigMatch head
  | "rar" => sigRar.isPrefixOf head
  | "tar" => sigUstar.isPrefixOf head || sigPax.isPrefixOf head
  | "xz" => sigXz.isPrefixOf head
  | "gz" => sigGz.isPrefixOf head
  | "bz2" => sigBz2.isPrefixOf head
  | "sqlite3" => sigSqlite.isPrefixOf head
  | "xls" => sigXls.isPrefixOf head
  | "hdf5" => sigHdf5.isPrefixOf head
  | "dta" => sigDtaText.isPrefixOf head || dtaBinMatch head
  | _ => false

/-- A file named `x.zip` whose bytes are a zip archive containing an
`xl/` member (i.e. an `.xlsx` workbook renamed to `.zip`). -/
def fileZipXl : FileModel :=
  { path := "x.zip", isDir := false,
    head := [0x50, 0x4b, 0x03, 0x04, 0x14, 0x00, 0x06, 0x00],
    zipNames := ["xl/workbook.xml", "xl/worksheets/sheet1.xml"],
    jsonOk := false, csvChunk := none }

/-- A file named `x.sqlite3` whose bytes carry the SQLite header. -/
def fileSqliteDb : FileModel :=
  { path := "x.sqlite3", isDir := false,
    head := sigSqlite ++ [0x10, 0x00, 0x01, 0x01],
    zipNames := [], jsonOk := false, csvChunk := none }

/-- A file with an unrecognized extension whose first chunk parses as
delimited text with 1 row and 2 columns. -/
def fileCsvProbe : FileModel :=
  { path := "x", isDir := false, head := [0x61, 0x2c, 0x62],
    zipNames := [], jsonOk := false, csvChunk := some (1, 2) }

/-! ## `unzip_files` — staleness policy for multi-file archives

For an archive of format 7z/zip/rar/tar, `unzip_files` computes a target
directory, deletes it when it is older (by modification time) than the
archive, creates it and runs the external extractor exactly when it does
not exist (any more), and finally walks the extracted files.  The model
captures the control flow as the effects it has: whether the stale target
was deleted, whether a target was created, and how many times
`extract_archive` ran. -/

/-- File-system state observed by the multi-file branch of `unzip_files`. -/
structure ArchiveState where
  /-- `os.path.exists(target)` on entry. -/
  targetExists : Bool
  /-- `os.stat(target).st_mtime` (meaningful when the target exists). -/
  targetMtime : Int
  /-- `os.stat(path).st_mtime` of the archive. -/
  archiveMtime : Int

/-- The externally visible effects of the multi-file branch. -/
structure UnzipEffects where
  /-- Whether `shutil.rmtree(target)` ran. -/
  deletedStale : Bool
  /-- Whether `os.makedirs(target)` ran. -/
  createdTarget : Bool
  /-- How many times `extract_archive` was invoked. -/
  extractCalls : Nat
deriving DecidableEq

/-- Model of the multi-file branch of `unzip_files` (formats 7z, zip, rar,
tar): delete the target iff it exists and is strictly older than the
archive; then create the target and invoke the extractor once iff the
target does not (any longer) exist.  Returns `none` for formats this
branch does not handle. -/
def unzip_files_effects (format : String) (st : ArchiveState) :
    Option UnzipEffects :=
  if format = "7z" ∨ format = "zip" ∨ format = "rar" ∨ format = "tar" then
    let stale := st.targetExists && decide (st.targetMtime < st.archiveMtime)
    let existsAfterDelete := st.targetExists && !stale
    let created := !existsAfterDelete
    some { deletedStale := stale, createdTarget := created,
           extractCalls := if created then 1 else 0 }
  else none

/-! ## `fetch` — download with an expiry window -/

/-- HTTP status code treated as success (`OK = 200` in the source). -/
def okStatus : Nat := 200

/-- `seconds_per_day = 86400` in the source. -/
def seconds_per_day : Int := 86400

/-- `expiry_days = 1` in the source. -/
def expiry_days : Int := 1

/-- The world as `fetch` observes it: whether the target path exists and
its modification time, the current clock, and the HTTP response that
`requests.get` would yield. -/
structure FetchState where
  /-- `os.path.exists(path)`. -/
  pathExists : Bool
  /-- `os.stat(path).st_mtime`. -/
  pathMtime : Int
  /-- `time.time()`. -/
  now : Int
  /-- `r.status_code`. -/
  status : Nat
  /-- `r.content`. -/
  content : List Nat

/-- What a call to `fetch` returned and did. -/
structure FetchResult where
  /-- The function's return value (`None` is modelled as `none`). -/
  returned : Option String
  /-- Whether `requests.get` was invoked. -/
  requested : Bool
  /-- The bytes written to the target path, if any were written. -/
  written : Option (List Nat)

/-- Model of `fetch(url, path)`: if the target exists and its mtime is
newer than `now - expiry_days * seconds_per_day`, return the path without
any request or write; otherwise issue the request and write the body only
when the status is `OK` and the body is non-empty — and then fall off the
end of the function, returning `None`. -/
def fetch (st : FetchState) : FetchResult :=
  if st.pathExists ∧ st.now - expiry_days * seconds_per_day < st.pathMtime then
    { returned := some "path", requested := false, written := none }
  else
    { returned := none, requested := true,
      written :=
        if st.status = okStatus ∧ st.content.length ≠ 0 then some st.content
        else none }

/-- A state in which the target is absent and the server answers 200 with
a non-empty body: `fetch` downloads and writes, but returns `None`. -/
def fetchDownloadState : FetchState :=
  { pathExists := false, pathMtime := 0, now := 1000000, status := 200,
    content := [0x61, 0x2c, 0x62] }

/-- A state in which the target exists and is fresh. -/
def fetchFreshState : FetchState :=
  { pathExists := true, pathMtime := 999999, now := 1000000, status := 200,
    content := [0x61] }

/-- A state in which the target is absent and the server answers 404. -/
def fetchFailState : FetchState :=
  { pathExists := false, pathMtime := 0, now := 1000000, status := 404,
    content := [0x61] }

/-! ## Data frames and column statistics (`metadata_frame`)

A pandas `DataFrame` is modelled column-major.  Cells are missing, numeric
(rationals stand in for the int64/float64 payload) or text; each column
records the `dtype.name` and `dtype.kind` character the code inspects. -/

/-- A cell of a data frame. -/
inductive CellVal where
  | na
  | num (q : ℚ)
  | str (s : String)
deriving DecidableEq

/-- One column of a data frame. -/
structure FrameCol where
  /-- `text_type(col)`: the stringified column label. -/
  name : String
  /-- `series.dtype.name`, e.g. `int64`. -/
  dtypeName : String
  /-- `series.dtype.kind`, e.g. `i` or `f`. -/
  kind : Char
  /-- The column's cells, one per row. -/
  cells : List CellVal
deriving DecidableEq

/-- A data frame: `len(data)` (the row count) together with the columns in
order.  In a well-formed frame every column has `nrows` cells. -/
structure Frame where
  nrows : Nat
  cols : List FrameCol
deriving DecidableEq

/-- A well-formed frame: each column has exactly `nrows` cells. -/
def Frame.WF (f : Frame) : Prop :=
  ∀ c ∈ f.cols, c.cells.length = f.nrows

/-- The output of `series.dropna().describe()` for a numeric series.
pandas reports the sample standard deviation; to keep the model inside
executable rationals the `stdSq` field records its square (the sample
variance).  No claim depends on the standard deviation itself. -/
structure Moments where
  count : Nat
  mean : ℚ
  stdSq : ℚ
  min : ℚ
  q25 : ℚ
  q50 : ℚ
  q75 : ℚ
  max : ℚ
deriving DecidableEq

/-- Keep the first occurrence of each value, in order (used to give
`value_counts` a deterministic value order; pandas leaves the order of
equal-count values unspecified, an upstream gap the spec itself notes). -/
def firstUniques (seen : List CellVal) : List CellVal → List CellVal
  | [] => []
  | v :: rest =>
    if v ∈ seen then firstUniques seen rest
    else v :: firstUniques (v :: seen) rest

/-- Stable insertion into a list sorted by descending count: the new
element (which occurred earlier) goes before any equal-count element. -/
def insertByCount (x : CellVal × Nat) :
    List (CellVal × Nat) → List (CellVal × Nat)
  | [] => [x]
  | y :: rest => if x.2 < y.2 then y :: insertByCount x rest else x :: y :: rest

/-- Stable sort by descending count. -/
def sortByCountDesc : List (CellVal × Nat) → List (CellVal × Nat)
  | [] => []
  | x :: rest => insertByCount x (sortByCountDesc rest)

/-- `series.value_counts()` over the non-null values: each distinct value
with its multiplicity, by descending count, ties in first-occurrence
order. -/
def valueCounts (vals : List CellVal) : List (CellVal × Nat) :=
  sortByCountDesc ((firstUniques [] vals).map (fun v => (v, vals.count v)))

/-- Stable ascending insertion for rationals. -/
def insertAsc (x : ℚ) : List ℚ → List ℚ
  | [] => [x]
  | y :: rest => if x ≤ y then x :: y :: rest else y :: insertAsc x rest

/-- Ascending insertion sort for rationals. -/
def sortAsc : List ℚ → List ℚ
  | [] => []
  | x :: rest => insertAsc x (sortAsc rest)

/-- Floor of a non-negative rational, as a natural number. -/
def floorNonnegQ (q : ℚ) : Nat := q.num.toNat / q.den

/-- pandas' linearly interpolated quantile over a sorted list. -/
def quantileQ (sorted : List ℚ) (p : ℚ) : ℚ :=
  match sorted with
  | [] => 0
  | _ :: _ =>
    let n := sorted.length
    let h : ℚ := p * ((n : ℚ) - 1)
    let lo := floorNonnegQ h
    let xlo := sorted.getD lo 0
    let xhi := sorted.getD (min (lo + 1) (n - 1)) 0
    xlo + (h - (lo : ℚ)) * (xhi - xlo)

/-- The numeric payloads of a column's cells, nulls dropped. -/
def numValues (cells : List CellVal) : List ℚ :=
  cells.filterMap (fun v => match v with | .num q => some q | _ => none)

/-- `series.dropna().describe()`.  On an empty or singleton series pandas
produces NaNs for mean/std; the model's division by zero yields `0`
there — no claim concerns those cases. -/
def describeQ (vs : List ℚ) : Moments :=
  let n := vs.length
  let mean := vs.sum / (n : ℚ)
  let sorted := sortAsc vs
  { count := n, mean := mean,
    stdSq := (vs.map (fun x => (x - mean) ^ 2)).sum / ((n : ℚ) - 1),
    min := sorted.headD 0,
    q25 := quantileQ sorted (1 / 4),
    q50 := quantileQ sorted (1 / 2),
    q75 := quantileQ sorted (3 / 4),
    max := sorted.getLastD 0 }

/-- The per-column metadata record built by `metadata_frame`. -/
structure ColStat where
  name : String
  type_pandas : String
  missing : Nat
  nunique : Nat
  /-- `series.value_counts().head(top)`. -/
  top : List (CellVal × Nat)
  /-- Present only when `series.dtype.kind in {'i', 'f'}`. -/
  moments : Option Moments
deriving DecidableEq

/-- The body of the `for col, series in data.iteritems()` loop: one
`Column` record. -/
def colMeta (top : Nat) (c : FrameCol) : ColStat :=
  { name := c.name, type_pandas := c.dtypeName,
    missing := c.cells.countP (fun v => v = .na),
    nunique := ((c.cells.filter (fun v => v ≠ .na)).dedup).length,
    top := (valueCounts (c.cells.filter (fun v => v ≠ .na))).take top,
    moments :=
      if c.kind = 'i' ∨ c.kind = 'f' then some (describeQ (numValues c.cells))
      else none }

/-- Insertion into an ordered dictionary (`orderedattrdict.AttrDict`):
assigning to an existing key replaces its value in place, keeping the
original position; a new key goes to the end. -/
def insertOD (k : String) (v : ColStat) :
    List (String × ColStat) → List (String × ColStat)
  | [] => [(k, v)]
  | (k1, v1) :: rest =>
    if k1 = k then (k, v) :: rest else (k1, v1) :: insertOD k v rest

/-! ## The `Meta` tree -/

/-- The value of a node's `columns` entry: either an ordered mapping from
column name to `Column` statistics, or — after deduplication — a single
`Column(see=...)` back-reference. -/
inductive ColumnsVal where
  | stats (entries : List (String × ColStat))
  | see (ref : String)
deriving DecidableEq

/-- A `Meta` node.  Optional entries model dictionary keys that may be
absent; `hasDatasets` distinguishes an absent `datasets` key from a
present-but-empty `Datasets()` (both arise in the source). -/
inductive Meta where
  | node (source name format error : Option String)
      (command : Option (List String)) (rows : Option Nat)
      (columns : Option ColumnsVal) (head sample : Option Frame)
      (hasDatasets : Bool) (datasets : List (String × Meta))

/-- The node with no entries: `Meta()`. -/
def Meta.empty : Meta :=
  .node none none none none none none none none none false []

def Meta.source : Meta → Option String
  | .node s _ _ _ _ _ _ _ _ _ _ => s

def Meta.name : Meta → Option String
  | .node _ n _ _ _ _ _ _ _ _ _ => n

def Meta.format : Meta → Option String
  | .node _ _ f _ _ _ _ _ _ _ _ => f

def Meta.error : Meta → Option String
  | .node _ _ _ e _ _ _ _ _ _ _ => e

def Meta.command : Meta → Option (List String)
  | .node _ _ _ _ c _ _ _ _ _ _ => c

def Meta.rows : Meta → Option Nat
  | .node _ _ _ _ _ r _ _ _ _ _ => r

def Meta.columns : Meta → Option ColumnsVal
  | .node _ _ _ _ _ _ c _ _ _ _ => c

def Meta.head : Meta → Option Frame
  | .node _ _ _ _ _ _ _ h _ _ _ => h

def Meta.sample : Meta → Option Frame
  | .node _ _ _ _ _ _ _ _ s _ _ => s

def Meta.hasDatasets : Meta → Bool
  | .node _ _ _ _ _ _ _ _ _ d _ => d

def Meta.datasets : Meta → List (String × Meta)
  | .node _ _ _ _ _ _ _ _ _ _ ds => ds

/-- `node['error'] = text_type(e)`. -/
def Meta.withError (e : String) : Meta → Meta
  | .node s n f _ c r col h sa hd ds => .node s n f (some e) c r col h sa hd ds

/-- `data.columns = ...` (wholesale replacement of the entry). -/
def Meta.withColumns (cv : ColumnsVal) : Meta → Meta
  | .node s n f e c r _ h sa hd ds => .node s n f e c r (some cv) h sa hd ds

/-- `base.update(other)` on the underlying ordered dictionaries: every
entry present in `other` overwrites the entry of `base`; entries absent
from `other` are kept. -/
def Meta.update : Meta → Meta → Meta
  | .node s1 n1 f1 e1 c1 r1 col1 h1 sa1 hd1 ds1,
    .node s2 n2 f2 e2 c2 r2 col2 h2 sa2 hd2 ds2 =>
    .node (s2.orElse fun _ => s1) (n2.orElse fun _ => n1)
      (f2.orElse fun _ => f1) (e2.orElse fun _ => e1)
      (c2.orElse fun _ => c1) (r2.orElse fun _ => r1)
      (col2.orElse fun _ => col1) (h2.orElse fun _ => h1)
      (sa2.orElse fun _ => sa1) (hd2 || hd1) (if hd2 then ds2 else ds1)

/-- `data.head(k)`: the first `k` rows. -/
def frameHead (data : Frame) (k : Nat) : Frame :=
  { nrows := min k data.nrows,
    cols := data.cols.map (fun c => { c with cells := c.cells.take k }) }

/-- The rows of `data` at the given indices, in the given order.  Models
`data.sample(k).sort_index()` once the (externally random) index choice is
fixed; `metadata_frame` receives the sorted chosen indices as an oracle
argument. -/
def frameRows (data : Frame) (idxs : List Nat) : Frame :=
  { nrows := idxs.length,
    cols := data.cols.map (fun c =>
      { c with cells := idxs.map (fun i => c.cells.getD i .na) }) }

/-- Model of `metadata_frame(data, top=3, preview=10)`: per-column
statistics keyed by column name in an ordered dictionary, the row count,
the first `min(preview, rows)` rows as `head`, and a sorted random sample
of the same size (`sampleSel` supplies the random draw). -/
def metadata_frame (data : Frame) (top preview : Nat) (sampleSel : List Nat) :
    Meta :=
  let columns := data.cols.foldl
    (fun acc c => insertOD c.name (colMeta top c) acc) []
  let preview1 := min preview data.nrows
  .node none none none none none (some data.nrows) (some (.stats columns))
    (some (frameHead data preview1)) (some (frameRows data sampleSel)) false []

/-- The frame read from the spec's concrete scenario: a 2-row CSV with
integer columns `a = [1, 3]` and `b = [2, 4]`. -/
def frameCsvX : Frame :=
  { nrows := 2,
    cols := [
      { name := "a", dtypeName := "int64", kind := 'i',
        cells := [.num 1, .num 3] },
      { name := "b", dtypeName := "int64", kind := 'i',
        cells := [.num 2, .num 4] }] }

/-- A 1-row frame with two distinct object columns sharing the label `a`. -/
def frameDupName : Frame :=
  { nrows := 1,
    cols := [
      { name := "a", dtypeName := "object", kind := 'O',
        cells := [.str "u"] },
      { name := "a", dtypeName := "object", kind := 'O',
        cells := [.str "v"] }] }

/-! ## The deduplication (merge) pass

`metadata` ends with: for every node carrying `datasets`, walk the
children in iteration order keeping `sign_lookup`, a dictionary from the
tuple of column names to the first child carrying it; a later child with
an already-seen signature has its `columns` replaced wholesale by
`Column(see=<first child's name>)`.  The outer loop applies this to every
container node independently, so signatures are never compared across
containers.  `mergeChildren` below is the per-container loop body. -/

/-- `tuple(col.name for col in data.columns.values())`.  Returns `none`
when `columns` holds a `see` reference: there Python would raise an
`AttributeError` (a string has no `name`), which cannot happen on a
freshly materialized tree. -/
def sigOfColumns : ColumnsVal → Option (List String)
  | .stats entries => some (entries.map (fun p => p.2.name))
  | .see _ => none

/-- The merge loop over a container's children, carrying `sign_lookup`
(`seen`).  `none` models the exceptions Python would raise on a malformed
tree (a `see`-valued signature, or a referenced first child without a
`name`). -/
def mergeGo (seen : List (List String × Meta)) :
    List (String × Meta) → Option (List (String × Meta))
  | [] => some []
  | (k, m) :: rest =>
    match m.columns with
    | none =>
      match mergeGo seen rest with
      | some rest1 => some ((k, m) :: rest1)
      | none => none
    | some cv =>
      match sigOfColumns cv with
      | none => none
      | some sig =>
        match seen.lookup sig with
        | some first =>
          match first.name with
          | none => none
          | some nm =>
            match mergeGo seen rest with
            | some rest1 => some ((k, m.withColumns (.see nm)) :: rest1)
            | none => none
        | none =>
          match mergeGo ((sig, m) :: seen) rest with
          | some rest1 => some ((k, m) :: rest1)
          | none => none

/-- The merge pass over one container's direct children. -/
def mergeChildren (children : List (String × Meta)) :
    Option (List (String × Meta)) :=
  mergeGo [] children

/-- A freshly materialized child is well formed: its `columns` entry, if
present, is a `stats` mapping (never an already-collapsed `see`), and a
child carrying `columns` carries a `name`.  Both hold for every tree the
pipeline builds. -/
def childWF (m : Meta) : Bool :=
  (match m.columns with
   | some (.see _) => false
   | _ => true) &&
  (match m.columns, m.name with
   | some _, none => false
   | _, _ => true)

/-- Specification-side signature of a child, following the claim's words:
the ordered tuple of column names of a materialized child. -/
def metaSig (m : Meta) : Option (List String) :=
  match m.columns with
  | some (.stats entries) => some (entries.map (fun p => p.2.name))
  | _ => none

/-- Specification side: the first sibling in `cs` whose ordered tuple of
column names is `sig`. -/
def firstWithSig (sig : List String) (cs : List (String × Meta)) :
    Option Meta :=
  (cs.find? (fun p => decide (metaSig p.2 = some sig))).map (fun p => p.2)

/-- Specification side, from the claim's words: a child whose signature
equals that of an earlier sibling gets its `columns` replaced by a
back-reference naming the first sibling with that signature; any other
child — in particular one without `columns` — is untouched. -/
def resolveChild (prior : List (String × Meta)) (m : Meta) : Meta :=
  match metaSig m with
  | none => m
  | some sig =>
    match firstWithSig sig prior with
    | some first => m.withColumns (.see (first.name.getD ""))
    | none => m

/-- Specification side: resolve each child against the siblings that
precede it. -/
def dedupSpec (prior : List (String × Meta)) :
    List (String × Meta) → List (String × Meta)
  | [] => []
  | (k, m) :: rest => (k, resolveChild prior m) :: dedupSpec (prior ++ [(k, m)]) rest

/-- A bare column statistic used by the concrete deduplication scenario. -/
def statX : ColStat :=
  { name := "x", type_pandas := "int64", missing := 0, nunique := 1,
    top := [], moments := none }

/-- A second bare column statistic. -/
def statY : ColStat :=
  { name := "y", type_pandas := "int64", missing := 0, nunique := 1,
    top := [], moments := none }

/-- A materialized child named `n` with columns `(x, y)`. -/
def childXY (n : String) : Meta :=
  .node none (some n) (some "table") none none (some 1)
    (some (.stats [("x", statX), ("y", statY)])) none none false []

/-- The spec's deduplication scenario: three siblings whose frames share
the column-name tuple `(x, y)`. -/
def sibsXY : List (String × Meta) :=
  [("t1", childXY "t1"), ("t2", childXY "t2"), ("t3", childXY "t3")]

/-! ## `read_encoded` — the encoding-fallback reader

`read_encoded` wraps a pandas reader: it walks a list of candidate
encodings, calling the reader with each; the first call that neither
raises nor (for a chunked read) yields an empty iterator wins, and its
first chunk is peeked and chained back in front of the remainder.  The
oracle `attempt` stands for one reader call under a given encoding, its
chunk iterator materialized as a list. -/

/-- The default encodings tuple of `read_encoded`. -/
def defaultEncodings : List String :=
  ["cp1252", "utf-8", "utf-16-le", "utf-16-be"]

/-- The loop of `read_encoded` for a chunked read.  `lastErr` carries the
most recent exception text, so that the dangling `raise e` after the loop
can re-raise it (Python 2 semantics; under Python 3 the name `e` is
already unbound there and an `UnboundLocalError` is raised instead —
either way the call raises rather than returning).  `next(result)` on an
empty chunk sequence raises `StopIteration`, which the bare `except`
catches like a parse failure. -/
def read_encoded_chunked (attempt : String → Except String (List Frame)) :
    List String → Option String → Except String (List Frame)
  | [], none => .error "UnboundLocalError"
  | [], some e => .error e
  | enc :: rest, _ =>
    match attempt enc with
    | .ok chunks =>
      match chunks with
      | [] => read_encoded_chunked attempt rest (some "StopIteration")
      | peek :: more => .ok (peek :: more)
    | .error e => read_encoded_chunked attempt rest (some e)

/-- `read_encoded(pd.read_csv)` with the default encodings and a
`chunksize` argument: the entry point `read_csv_encoded` takes. -/
def read_encoded_run (attempt : String → Except String (List Frame)) :
    Except String (List Frame) :=
  read_encoded_chunked attempt defaultEncodings none

/-- A concrete oracle: cp1252 raises, utf-8 parses to one chunk. -/
def attemptUtf8 : String → Except String (List Frame)
  | "utf-8" => .ok [frameCsvX]
  | _ => .error "UnicodeDecodeError"

/-! ## Tree construction (`metadata_file` / `metadata_sql`)

`metadata_file` dispatches on the detected format.  A `FileDesc` records,
for one path, the branch that `guess_format`'s tag selects together with
the environment that branch consumes (directory entries, extracted
archive members, database table names, workbook sheet names); `raises`
stands for a path whose processing raises (unreadable file, failing
extractor, and so on).  `buildTree` transcribes the branch bodies. -/

inductive FileDesc where
  | raises (msg : String)
  | unclassified
  | dirD (children : List (String × String × FileDesc))
  | archiveD (fmt : String) (members : List (String × FileDesc))
  | sqliteD (path : String) (tableNames : List String)
  | tablesD (fmt : String) (path : String) (tableList : List String)
  | leafD (fmt : String) (path : String)

/-- The readers of `_preview_command`. -/
inductive Reader where
  | csvReader | dtaReader | jsonReader | sqlReader | xlsxReader | hdf5Reader
deriving DecidableEq

/-- The `_preview_command` table: reader kind to reader, in source
order. -/
def _preview_command : List (String × Reader) :=
  [("csv", .csvReader), ("dta", .dtaReader), ("json", .jsonReader),
   ("sql", .sqlReader), ("xlsx", .xlsxReader), ("hdf5", .hdf5Reader)]

/-- The keys of `_preview_command`. -/
def previewKinds : List String := _preview_command.map (fun p => p.1)

/-- `tables or inspector.get_table_names(...)`: a non-empty caller list is
truthy and wins; `None` or an empty list falls back to the inspector. -/
def pickTables (tables : Option (List String)) (found : List String) :
    List String :=
  match tables with
  | some (t :: ts) => t :: ts
  | _ => found

/-- `source.rstrip('/')`. -/
def rstripSlash (s : String) : String :=
  String.mk (s.data.reverse.dropWhile (fun c => c = '/')).reverse

/-- `engine.url.drivername.startswith('postgresql')`. -/
def isPostgres (drivername : String) : Bool :=
  "postgresql".data.isPrefixOf drivername.data

/-- A `Meta([('name', t), ('format', 'table'), ('command', cmd)])` table
node. -/
def tableNode (t : String) (cmd : List String) : Meta :=
  .node none (some t) (some "table") none (some cmd) none none none none
    false []

/-- Model of `metadata_sql(source, tables)`.  The inspector is an oracle:
`connectable` is whether `sa.create_engine` succeeds, `dbNamed` whether
`engine.url.database` is truthy, `schemas` the schema names with their
table lists, `tableNames` the table list of the default database.  For a
server-level URL one container per schema is built; PostgreSQL's `public`
schema is read with `schema=None`, making its commands carry the bare
source URL. -/
def metadata_sql (source : String) (connectable dbNamed : Bool)
    (drivername : String) (schemas : List (String × List String))
    (tableNames : List String) (tables : Option (List String)) :
    Except String Meta :=
  if ¬connectable then .error ("Cannot process source " ++ source)
  else if dbNamed then
    .ok (.node none none none none none none none none none true
      ((pickTables tables tableNames).map (fun t =>
        (t, tableNode t ["sql", t, source]))))
  else
    let src := rstripSlash source ++ "/"
    .ok (.node none none none none none none none none none true
      (schemas.map (fun p =>
        (p.1, .node none (some p.1) (some "sql") none none none none none
          none true
          ((pickTables tables p.2).map (fun t =>
            (t, tableNode t ["sql", t,
              src ++ (if p.1 = "public" ∧ isPostgres drivername then ""
                      else p.1)])))))))

/-- The child skeleton `Meta(name=name, source=source)` of the directory
branch. -/
def dirChildBase (n src : String) : Meta :=
  .node (some src) (some n) none none none none none none none false []

/-- The child skeleton `Meta(name=name)` of the archive branch. -/
def archChildBase (n : String) : Meta :=
  .node none (some n) none none none none none none none false []

mutual

/-- Model of `metadata_file(path, root, tables)`, dispatching over the
resolved `FileDesc` of the path.  Per-child recursion failures are caught
and stored as `error` on that child; the loop continues with the
remaining children. -/
def buildTree (tables : Option (List String)) : FileDesc → Except String Meta
  | .raises msg => .error msg
  | .unclassified => .ok Meta.empty
  | .dirD children =>
    .ok (.node none none (some "dir") none none none none none none true
      (buildDirForest tables children))
  | .archiveD fmt members =>
    if fmt = "7z" ∨ fmt = "zip" ∨ fmt = "rar" ∨ fmt = "tar" ∨ fmt = "xz" ∨
        fmt = "gz" ∨ fmt = "bz2" then
      .ok (.node none none (some fmt) none none none none none none true
        (buildArchForest tables members))
    else .ok (.node none none (some fmt) none none none none none none
      false [])
  | .sqliteD path tableNames =>
    match metadata_sql ("sqlite:///" ++ path) true true "sqlite" []
        tableNames tables with
    | .ok sub =>
      .ok ((Meta.node none none (some "sqlite3") none none none none none
        none false []).update sub)
    | .error e => .error e
  | .tablesD fmt path tableList =>
    if fmt = "hdf5" ∨ fmt = "xls" ∨ fmt = "xlsx" then
      let kind := if fmt = "hdf5" then "hdf5" else "xlsx"
      .ok (.node none none (some fmt) none none none none none none true
        ((match tables with
          | none => tableList
          | some ts => tableList.filter (fun t => t ∈ ts)).map (fun t =>
            (t, tableNode t [kind, path, t]))))
    else .ok (.node none none (some fmt) none none none none none none
      false [])
  | .leafD fmt path =>
    .ok (.node none none (some fmt) none
      (if fmt = "csv" ∨ fmt = "json" ∨ fmt = "dta" then some [fmt, path]
       else none) none none none none false [])

/-- The directory loop: one child per walked file, recursion failures
stored as that child's `error`. -/
def buildDirForest (tables : Option (List String)) :
    List (String × String × FileDesc) → List (String × Meta)
  | [] => []
  | (n, src, d) :: rest =>
    (n, match buildTree tables d with
        | .ok sub => (dirChildBase n src).update sub
        | .error e => (dirChildBase n src).withError e) ::
      buildDirForest tables rest

/-- The archive loop: one child per extracted member, recursion failures
stored as that child's `error`. -/
def buildArchForest (tables : Option (List String)) :
    List (String × FileDesc) → List (String × Meta)
  | [] => []
  | (n, d) :: rest =>
    (n, match buildTree tables d with
        | .ok sub => (archChildBase n).update sub
        | .error e => (archChildBase n).withError e) ::
      buildArchForest tables rest

end

/-- Replace the `datasets` entry. -/
def Meta.setDatasets (ds : List (String × Meta)) : Meta → Meta
  | .node s n f e c r col h sa hd _ => .node s n f e c r col h sa hd ds

/-- The body of the materialization loop for one node: if the node holds
a command whose reader kind is a `_preview_command` key, run the reader
(the oracle returns the frame and the random sample draw, or the
exception text) and either merge `metadata_frame`'s entries in or store
the error. -/
def materializeNode (oracle : List String → Except String (Frame × List Nat))
    (top preview : Nat) (m : Meta) : Meta :=
  match m.command with
  | some (kind :: args) =>
    if previewKinds.contains kind then
      match oracle (kind :: args) with
      | .ok (fr, sel) => m.update (metadata_frame fr top preview sel)
      | .error e => m.withError e
    else m
  | _ => m

mutual

/-- The materialization loop of `metadata`, which visits every node of
the tree (the root included) and applies `materializeNode`; the per-node
`try`/`except` makes the walk total. -/
def materializeTree (oracle : List String → Except String (Frame × List Nat))
    (top preview : Nat) : Meta → Meta
  | .node s n f e c r col h sa hd ds =>
    (materializeNode oracle top preview
        (.node s n f e c r col h sa hd ds)).setDatasets
      (materializeForest oracle top preview ds)

def materializeForest
    (oracle : List String → Except String (Frame × List Nat))
    (top preview : Nat) : List (String × Meta) → List (String × Meta)
  | [] => []
  | (n, m) :: rest =>
    (n, materializeTree oracle top preview m) ::
      materializeForest oracle top preview rest

end

mutual

/-- Every deferred command of a tree, in walk order. -/
def commandsOf : Meta → List (List String)
  | .node _ _ _ _ c _ _ _ _ _ ds =>
    (match c with | some cmd => [cmd] | none => []) ++ commandsForest ds

def commandsForest : List (String × Meta) → List (List String)
  | [] => []
  | (_, m) :: rest => commandsOf m ++ commandsForest rest

end

/-- A directory with one unreadable member and one valid CSV member. -/
def exDirChildren : List (String × String × FileDesc) :=
  [("bad", "/d/bad", .raises "unreadable"),
   ("good.csv", "/d/good.csv", .leafD "csv" "/d/good.csv")]

/-- A built leaf node carrying a CSV command. -/
def exCsvNode : Meta :=
  .node none (some "good.csv") (some "csv") none
    (some ["csv", "/d/good.csv"]) none none none none false []

/-- A reader oracle whose every read raises. -/
def exOracle : List String → Except String (Frame × List Nat) :=
  fun _ => .error "read failure"

/-- The tree built for a legacy `xls` workbook with one sheet. -/
def xlsNode : Meta :=
  .node none none (some "xls") none none none none none none true
    [("Sheet1", tableNode "Sheet1" ["xlsx", "wb.xls", "Sheet1"])]

/-! ## `filename` — cache naming with a truncated MD5 hash

`filename(url, root)` returns
`os.path.join(root, '{urlhash}-{name}{ext}')` where `urlhash` is the
first 10 hex characters of `md5(url.encode('utf-8')).hexdigest()` and
`name, ext = os.path.splitext(os.path.split(urlparse(url).path)[-1])`.
`hashlib`'s MD5 is modelled by a full RFC 1321 implementation over `Nat`
bytes (32-bit words are `Nat` with explicit `% 2 ^ 32`). -/

/-- Addition modulo `2 ^ 32`. -/
def add32 (x y : Nat) : Nat := (x + y) % 2 ^ 32

/-- Bitwise complement within 32 bits (argument below `2 ^ 32`). -/
def not32 (x : Nat) : Nat := (2 ^ 32 - 1) - x % 2 ^ 32

/-- Left-rotation of a 32-bit word. -/
def rotl32 (x n : Nat) : Nat :=
  (x % 2 ^ 32) * 2 ^ n % 2 ^ 32 + (x % 2 ^ 32) / 2 ^ (32 - n)

/-- The MD5 round functions F, G, H, I, selected by the round index. -/
def md5F (i b c d : Nat) : Nat :=
  if i < 16 then Nat.lor (Nat.land b c) (Nat.land (not32 b) d)
  else if i < 32 then Nat.lor (Nat.land d b) (Nat.land (not32 d) c)
  else if i < 48 then Nat.xor b (Nat.xor c d)
  else Nat.xor c (Nat.lor b (not32 d))

/-- The message-word schedule of MD5. -/
def md5G (i : Nat) : Nat :=
  if i < 16 then i
  else if i < 32 then (5 * i + 1) % 16
  else if i < 48 then (3 * i + 5) % 16
  else (7 * i) % 16

/-- The per-round left-rotation amounts of MD5. -/
def md5S : List Nat :=
  [7, 12, 17, 22, 7, 12, 17, 22, 7, 12, 17, 22, 7, 12, 17, 22,
   5, 9, 14, 20, 5, 9, 14, 20, 5, 9, 14, 20, 5, 9, 14, 20,
   4, 11, 16, 23, 4, 11, 16, 23, 4, 11, 16, 23, 4, 11, 16, 23,
   6, 10, 15, 21, 6, 10, 15, 21, 6, 10, 15, 21, 6, 10, 15, 21]

/-- The sine-derived constant table of MD5. -/
def md5K : List Nat :=
  [0xd76aa478, 0xe8c7b756, 0x242070db, 0xc1bdceee,
   0xf57c0faf, 0x4787c62a, 0xa8304613, 0xfd469501,
   0x698098d8, 0x8b44f7af, 0xffff5bb1, 0x895cd7be,
   0x6b901122, 0xfd987193, 0xa679438e, 0x49b40821,
   0xf61e2562, 0xc040b340, 0x265e5a51, 0xe9b6c7aa,
   0xd62f105d, 0x02441453, 0xd8a1e681, 0xe7d3fbc8,
   0x21e1cde6, 0xc33707d6, 0xf4d50d87, 0x455a14ed,
   0xa9e3e905, 0xfcefa3f8, 0x676f02d9, 0x8d2a4c8a,
   0xfffa3942, 0x8771f681, 0x6d9d6122, 0xfde5380c,
   0xa4beea44, 0x4bdecfa9, 0xf6bb4b60, 0xbebfbc70,
   0x289b7ec6, 0xeaa127fa, 0xd4ef3085, 0x04881d05,
   0xd9d4d039, 0xe6db99e5, 0x1fa27cf8, 0xc4ac5665,
   0xf4292244, 0x432aff97, 0xab9423a7, 0xfc93a039,
   0x655b59c3, 0x8f0ccc92, 0xffeff47d, 0x85845dd1,
   0x6fa87e4f, 0xfe2ce6e0, 0xa3014314, 0x4e0811a1,
   0xf7537e82, 0xbd3af235, 0x2ad7d2bb, 0xeb86d391]

/-- The `g`-th little-endian 32-bit word of a 64-byte chunk. -/
def leWord (chunk : List Nat) (g : Nat) : Nat :=
  chunk.getD (4 * g) 0 + 256 * chunk.getD (4 * g + 1) 0 +
    65536 * chunk.getD (4 * g + 2) 0 + 16777216 * chunk.getD (4 * g + 3) 0

/-- One MD5 round. -/
def md5Round (chunk : List Nat) (st : Nat × Nat × Nat × Nat) (i : Nat) :
    Nat × Nat × Nat × Nat :=
  let (a, b, c, d) := st
  let f := add32 (add32 (md5F i b c d) a)
    (add32 (md5K.getD i 0) (leWord chunk (md5G i)))
  (d, add32 b (rotl32 f (md5S.getD i 0)), b, c)

/-- Process one 64-byte chunk. -/
def md5Chunk (st : Nat × Nat × Nat × Nat) (chunk : List Nat) :
    Nat × Nat × Nat × Nat :=
  let (a0, b0, c0, d0) := st
  let (a, b, c, d) := (List.range 64).foldl (md5Round chunk) st
  (add32 a0 a, add32 b0 b, add32 c0 c, add32 d0 d)

/-- The length field: the original bit length as 8 little-endian bytes. -/
def leBytes8 (n : Nat) : List Nat :=
  [n % 256, n / 256 % 256, n / 256 ^ 2 % 256, n / 256 ^ 3 % 256,
   n / 256 ^ 4 % 256, n / 256 ^ 5 % 256, n / 256 ^ 6 % 256,
   n / 256 ^ 7 % 256]

/-- MD5 padding: a `0x80` byte, zeros to 56 mod 64, then the bit length. -/
def md5Pad (msg : List Nat) : List Nat :=
  msg ++ 0x80 :: List.replicate ((119 - msg.length % 64) % 64) 0 ++
    leBytes8 (8 * msg.length % 2 ^ 64)

/-- Process `k` chunks of 64 bytes. -/
def md5Chunks : Nat → List Nat → Nat × Nat × Nat × Nat →
    Nat × Nat × Nat × Nat
  | 0, _, st => st
  | k + 1, msg, st => md5Chunks k (msg.drop 64) (md5Chunk st (msg.take 64))

/-- A 32-bit word as 4 little-endian bytes. -/
def leBytes4 (n : Nat) : List Nat :=
  [n % 256, n / 256 % 256, n / 65536 % 256, n / 16777216 % 256]

/-- The 16-byte MD5 digest of a byte string. -/
def md5Digest (msg : List Nat) : List Nat :=
  let padded := md5Pad msg
  let st := md5Chunks (padded.length / 64) padded
    (0x67452301, 0xefcdab89, 0x98badcfe, 0x10325476)
  leBytes4 st.1 ++ leBytes4 st.2.1 ++ leBytes4 st.2.2.1 ++
    leBytes4 st.2.2.2

/-- UTF-8 encoding of one code point. -/
def utf8Char (n : Nat) : List Nat :=
  if n < 0x80 then [n]
  else if n < 0x800 then [0xc0 + n / 64, 0x80 + n % 64]
  else if n < 0x10000 then
    [0xe0 + n / 4096, 0x80 + n / 64 % 64, 0x80 + n % 64]
  else [0xf0 + n / 262144, 0x80 + n / 4096 % 64, 0x80 + n / 64 % 64,
    0x80 + n % 64]

/-- `url.encode('utf-8')`. -/
def utf8Bytes (s : String) : List Nat :=
  (s.data.map (fun c => utf8Char c.toNat)).flatten

/-- The lower-case hexadecimal digits. -/
def hexDigits : List Char := "0123456789abcdef".data

/-- The hex character of a digit value. -/
def hexDigitChar (n : Nat) : Char := hexDigits.getD n '0'

/-- A byte as two hex characters. -/
def byteHex (b : Nat) : List Char := [hexDigitChar (b / 16), hexDigitChar (b % 16)]

/-- `md5(s.encode('utf-8')).hexdigest()` as a character list. -/
def md5HexChars (s : String) : List Char :=
  ((md5Digest (utf8Bytes s)).map byteHex).flatten

/-- `urlparse(url).path` for the `scheme://netloc/path` URLs that
`metadata` passes to `filename`: the text after the `://` and the
authority, cut at a query or fragment marker. -/
def urlPathChars : List Char → List Char :=
  fun u =>
    match dropScheme u with
    | some rest => (rest.dropWhile (fun c => c ≠ '/')).takeWhile
        (fun c => c ≠ '?' ∧ c ≠ '#')
    | none => u.takeWhile (fun c => c ≠ '?' ∧ c ≠ '#')
where
  dropScheme : List Char → Option (List Char)
    | ':' :: '/' :: '/' :: rest => some rest
    | _ :: rest => dropScheme rest
    | [] => none

/-- The first 10 characters of the URL's MD5 hexdigest. -/
def urlHash10 (u : String) : List Char := (md5HexChars u).take 10

/-- `{name}{ext}` — the basename of the URL's path. -/
def urlNameExt (u : String) : List Char :=
  stemChars (urlPathChars u.data) ++ extWithDotChars (urlPathChars u.data)

/-- Model of `filename(url, root)`:
`os.path.abspath(os.path.join(root, '{urlhash}-{name}{ext}'))`, for an
absolute, already-normalized cache root (as `metadata` supplies), where
`abspath` is the identity and `join` inserts one separator. -/
def filename (url root : String) : String :=
  String.mk (root.data ++ '/' :: (urlHash10 url ++ '-' :: urlNameExt url))

/-- The colliding pair: two distinct URLs with the same path basename
whose MD5 hexdigests share their first 10 characters
(`bf2069a8f8`). -/
def urlU : String := "http://h/fb1a1/x"

/-- The second member of the colliding pair. -/
def urlV : String := "http://h/13b86b/x"

/-! ## Lemmas about the signature cascade -/

theorem exists_append_of_isPrefixOf {p h : List Nat} (hp : p.isPrefixOf h = true) :
    ∃ tl, h = p ++ tl := by
  rcases List.isPrefixOf_iff_prefix.mp hp with ⟨tl, htl⟩
  exact ⟨tl, htl.symm⟩

theorem zipSigMatch_false_of_b0 {b0 : Nat} (rest : List Nat) (h : ¬b0 = 0x50) :
    zipSigMatch (b0 :: rest) = false := by
  rcases rest with _ | ⟨b1, _ | ⟨b2, _ | ⟨b3, tail⟩⟩⟩ <;> simp [zipSigMatch, h]

/-- A head matching one of the leading-byte signatures is classified by the
signature cascade as exactly that signature's tag; the sole proviso is that
a zip-signature file classifies as `zip` only when no member name starts
with `xl/`. -/
theorem signatureFormat_of_byteSig (t : String) (head : List Nat)
    (zipNames : List String) (h : byteSigMatch t head = true)
    (hzip : t = "zip" → zipNames.any startsWithXl = false) :
    signatureFormat head zipNames = some t := by
  unfold byteSigMatch at h
  split at h
  · obtain ⟨tl, rfl⟩ := exists_append_of_isPrefixOf h
    simp [signatureFormat, sig7z, List.isPrefixOf]
  · -- zip
    match head, h with
    | b0 :: b1 :: b2 :: b3 :: rest, h =>
      simp only [zipSigMatch, decide_eq_true_eq] at h
      obtain ⟨rfl, rfl, hver⟩ := h
      simp [signatureFormat, sig7z, List.isPrefixOf, zipSigMatch, hver,
        hzip rfl]
  · obtain ⟨tl, rfl⟩ := exists_append_of_isPrefixOf h
    simp [signatureFormat, sig7z, sigRar, List.isPrefixOf, zipSigMatch]
  · -- tar: two signature variants
    rcases Bool.or_eq_true_iff.mp h with h' | h'
    · obtain ⟨tl, rfl⟩ := exists_append_of_isPrefixOf h'
      simp [signatureFormat, sig7z, sigRar, sigUstar, sigPax, List.isPrefixOf,
        zipSigMatch]
    · obtain ⟨tl, rfl⟩ := exists_append_of_isPrefixOf h'
      simp [signatureFormat, sig7z, sigRar, sigUstar, sigPax, List.isPrefixOf,
        zipSigMatch]
  · obtain ⟨tl, rfl⟩ := exists_append_of_isPrefixOf h
    simp [signatureFormat, sig7z, sigRar, sigUstar, sigPax, sigXz,
      List.isPrefixOf, zipSigMatch]
  · obtain ⟨tl, rfl⟩ := exists_append_of_isPrefixOf h
    simp [signatureFormat, sig7z, sigRar, sigUstar, sigPax, sigXz, sigGz,
      List.isPrefixOf, zipSigMatch_false_of_b0]
  · obtain ⟨tl, rfl⟩ := exists_append_of_isPrefixOf h
    simp [signatureFormat, sig7z, sigRar, sigUstar, sigPax, sigXz, sigGz,
      sigBz2, List.isPrefixOf, zipSigMatch_false_of_b0]
  · obtain ⟨tl, rfl⟩ := exists_append_of_isPrefixOf h
    simp [signatureFormat, sig7z, sigRar, sigUstar, sigPax, sigXz, sigGz,
      sigBz2, sigSqlite, List.isPrefixOf, zipSigMatch]
  · obtain ⟨tl, rfl⟩ := exists_append_of_isPrefixOf h
    simp [signatureFormat, sig7z, sigRar, sigUstar, sigPax, sigXz, sigGz,
      sigBz2, sigSqlite, sigXls, List.isPrefixOf, zipSigMatch]
  · obtain ⟨tl, rfl⟩ := exists_append_of_isPrefixOf h
    simp [signatureFormat, sig7z, sigRar, sigUstar, sigPax, sigXz, sigGz,
      sigBz2, sigSqlite, sigXls, sigHdf5, List.isPrefixOf, zipSigMatch]
  · -- dta: modern text header or legacy binary header
    rcases Bool.or_eq_true_iff.mp h with h' | h'
    · obtain ⟨tl, rfl⟩ := exists_append_of_isPrefixOf h'
      simp [signatureFormat, sig7z, sigRar, sigUstar, sigPax, sigXz, sigGz,
        sigBz2, sigSqlite, sigXls, sigHdf5, sigDtaText, List.isPrefixOf,
        zipSigMatch]
    · match head, h' with
      | b0 :: b1 :: b2 :: b3 :: rest, h' =>
        simp only [dtaBinMatch, decide_eq_true_eq] at h'
        obtain ⟨hlo, hhi, hver, rfl, rfl⟩ := h'
        have e1 : sig7z.isPrefixOf (b0 :: b1 :: 1 :: 0 :: rest) = false := by
          simp [sig7z, List.isPrefixOf]
        have e2 : zipSigMatch (b0 :: b1 :: 1 :: 0 :: rest) = false :=
          zipSigMatch_false_of_b0 _ (by omega)
        have e3 : sigRar.isPrefixOf (b0 :: b1 :: 1 :: 0 :: rest) = false := by
          simp [sigRar, List.isPrefixOf]
        have e4 : sigUstar.isPrefixOf (b0 :: b1 :: 1 :: 0 :: rest) = false := by
          simp [sigUstar, List.isPrefixOf]
        have e5 : sigPax.isPrefixOf (b0 :: b1 :: 1 :: 0 :: rest) = false := by
          simp [sigPax, List.isPrefixOf]
        have e6 : sigXz.isPrefixOf (b0 :: b1 :: 1 :: 0 :: rest) = false := by
          simp [sigXz, List.isPrefixOf]
        have e7 : sigGz.isPrefixOf (b0 :: b1 :: 1 :: 0 :: rest) = false := by
          simp [sigGz, List.isPrefixOf]; omega
        have e8 : sigBz2.isPrefixOf (b0 :: b1 :: 1 :: 0 :: rest) = false := by
          simp [sigBz2, List.isPrefixOf]
        have e9 : sigSqlite.isPrefixOf (b0 :: b1 :: 1 :: 0 :: rest) = false := by
          simp [sigSqlite, List.isPrefixOf]
        have e10 : sigXls.isPrefixOf (b0 :: b1 :: 1 :: 0 :: rest) = false := by
          simp [sigXls, List.isPrefixOf]
        have e11 : sigHdf5.isPrefixOf (b0 :: b1 :: 1 :: 0 :: rest) = false := by
          simp [sigHdf5, List.isPrefixOf]
        have e12 : sigDtaText.isPrefixOf (b0 :: b1 :: 1 :: 0 :: rest) = false := by
          simp [sigDtaText, List.isPrefixOf]
        have e13 : dtaBinMatch (b0 :: b1 :: 1 :: 0 :: rest) = true := by
          simp [dtaBinMatch]; omega
        simp [signatureFormat, e1, e2, e3, e4, e5, e6, e7, e8, e9, e10, e11,
          e12, e13]
  · exact absurd h (by simp)

/-- C1, counterexample: a file named `x.zip` whose leading bytes match the
zip signature but whose member list contains an `xl/` entry is classified
as `zip` when the extension is consulted and as `xlsx` when only the
signature is consulted — so extension-driven and signature-driven
classification do not always agree on the extension's tag. -/
theorem guess_format_zip_xlsx_disagree :
    ext_map (String.mk (extLowerChars fileZipXl.path.data)) = some "zip" ∧
    byteSigMatch "zip" fileZipXl.head = true ∧
    fileZipXl.isDir = false ∧
    guess_format fileZipXl false = some "zip" ∧
    guess_format fileZipXl true = some "xlsx" ∧
    guess_format fileZipXl false ≠ guess_format fileZipXl true := by
  decide

/-- C1, amended: for every format tag with a leading-byte signature
(`7z`, `zip`, `rar`, `tar`, `xz`, `gz`, `bz2`, `sqlite3`, `xls`, `hdf5`,
`dta`), a non-directory path whose extension maps to the tag and whose
leading bytes match the tag's signature classifies as that same tag with
`ignore_ext=False` and with `ignore_ext=True` — provided, for `zip` only,
that the archive holds no member whose name starts with `xl/` (such a file
classifies as `xlsx` when the signature is consulted). -/
theorem guess_format_ext_signature_agree (m : FileModel) (t : String)
    (hext : ext_map (String.mk (extLowerChars m.path.data)) = some t)
    (hdir : m.isDir = false)
    (hsig : byteSigMatch t m.head = true)
    (hzip : t = "zip" →
      m.zipNames.any startsWithXl = false) :
    guess_format m false = some t ∧ guess_format m true = some t := by
  have hne : extLowerChars m.path.data ≠ [] := by
    intro hnil
    rw [hnil] at hext
    have h0 : ext_map (String.mk []) = none := rfl
    rw [h0] at hext
    exact Option.noConfusion hext
  have hsf := signatureFormat_of_byteSig t m.head m.zipNames hsig hzip
  refine ⟨?_, ?_⟩ <;> simp [guess_format, hext, hne, hdir, hsf]

/-- C1, witness for the amended theorem: a file named `x.sqlite3` whose
bytes carry the SQLite header classifies as `sqlite3` both ways. -/
theorem guess_format_ext_signature_agree_witness :
    (ext_map (String.mk (extLowerChars fileSqliteDb.path.data)) =
        some "sqlite3" ∧
      fileSqliteDb.isDir = false ∧
      byteSigMatch "sqlite3" fileSqliteDb.head = true ∧
      ("sqlite3" = "zip" →
        fileSqliteDb.zipNames.any startsWithXl = false)) ∧
    guess_format fileSqliteDb false = some "sqlite3" ∧
    guess_format fileSqliteDb true = some "sqlite3" :=
  ⟨⟨by decide, by decide, by decide, by decide⟩,
    guess_format_ext_signature_agree fileSqliteDb "sqlite3" (by decide)
      (by decide) (by decide) (by decide)⟩

/-- C8: with no applicable extension mapping, no matching binary
signature, and a failing JSON probe, `guess_format` returns `csv` exactly
when the first chunk of the encoding-fallback CSV parse has at least one
row and at least two columns; otherwise — including when the parse raises —
it returns `None` rather than raising. -/
theorem guess_format_csv_guard (m : FileModel)
    (hext : extLowerChars m.path.data = [] ∨
      ext_map (String.mk (extLowerChars m.path.data)) = none)
    (hdir : m.isDir = false)
    (hsig : signatureFormat m.head m.zipNames = none)
    (hjson : m.jsonOk = false) :
    (guess_format m false = some "csv" ↔
      ∃ r c, m.csvChunk = some (r, c) ∧ 1 ≤ r ∧ 2 ≤ c) ∧
    ((¬∃ r c, m.csvChunk = some (r, c) ∧ 1 ≤ r ∧ 2 ≤ c) →
      guess_format m false = none) := by
  have hgf : guess_format m false =
      match m.csvChunk with
      | some (rows, cols) => if 1 ≤ rows ∧ 2 ≤ cols then some "csv" else none
      | none => none := by
    rcases hext with h | h <;> simp [guess_format, h, hdir, hsig, hjson]
  rw [hgf]
  rcases hc : m.csvChunk with _ | ⟨r, c⟩
  · exact ⟨by simp, fun _ => rfl⟩
  · have hred : (match some (r, c) with
        | some (rows, cols) =>
          if 1 ≤ rows ∧ 2 ≤ cols then some "csv" else none
        | none => (none : Option String)) =
        if 1 ≤ r ∧ 2 ≤ c then some "csv" else none := rfl
    rw [hred]
    by_cases hg : 1 ≤ r ∧ 2 ≤ c
    · refine ⟨⟨fun _ => ⟨r, c, rfl, hg.1, hg.2⟩, fun _ => by rw [if_pos hg]⟩, ?_⟩
      intro hne
      exact absurd ⟨r, c, rfl, hg.1, hg.2⟩ hne
    · refine ⟨⟨fun habs => ?_, fun habs => ?_⟩, fun _ => by rw [if_neg hg]⟩
      · rw [if_neg hg] at habs
        exact Option.noConfusion habs
      · obtain ⟨r1, c1, heq, h1, h2⟩ := habs
        cases heq
        exact absurd ⟨h1, h2⟩ hg

/-- C8, witness: a file with an unrecognized extension whose first CSV
chunk has 1 row and 2 columns classifies as `csv`. -/
theorem guess_format_csv_guard_witness :
    (extLowerChars fileCsvProbe.path.data = [] ∧
      fileCsvProbe.isDir = false ∧
      signatureFormat fileCsvProbe.head fileCsvProbe.zipNames = none ∧
      fileCsvProbe.jsonOk = false) ∧
    (guess_format fileCsvProbe false = some "csv" ↔
      ∃ r c, fileCsvProbe.csvChunk = some (r, c) ∧ 1 ≤ r ∧ 2 ≤ c) :=
  ⟨⟨by decide, by decide, by decide, by decide⟩,
    (guess_format_csv_guard fileCsvProbe (Or.inl (by decide)) (by decide)
        (by decide) (by decide)).1⟩

/-- C2: for every multi-file archive format (7z, zip, rar, tar):
a target that exists and is not older than the archive is reused with no
extractor invocation; a missing target is created and the extractor runs
exactly once; an existing but older target is deleted and re-extracted. -/
theorem unzip_files_staleness (format : String) (st : ArchiveState)
    (hfmt : format = "7z" ∨ format = "zip" ∨ format = "rar" ∨ format = "tar") :
    ∃ eff, unzip_files_effects format st = some eff ∧
      (st.targetExists = true → st.archiveMtime ≤ st.targetMtime →
        eff.deletedStale = false ∧ eff.createdTarget = false ∧
          eff.extractCalls = 0) ∧
      (st.targetExists = false →
        eff.createdTarget = true ∧ eff.extractCalls = 1) ∧
      (st.targetExists = true → st.targetMtime < st.archiveMtime →
        eff.deletedStale = true ∧ eff.createdTarget = true ∧
          eff.extractCalls = 1) := by
  refine ⟨_, by rw [unzip_files_effects, if_pos hfmt], ?_, ?_, ?_⟩
  · intro h1 h2
    have hst : decide (st.targetMtime < st.archiveMtime) = false := by
      simp; omega
    simp [h1, hst]
  · intro h1
    simp [h1]
  · intro h1 h2
    have hst : decide (st.targetMtime < st.archiveMtime) = true :=
      decide_eq_true h2
    simp [h1, hst]

/-- C2, witness: for a fresh zip target the extractor is not invoked; the
model evaluates accordingly on concrete states. -/
theorem unzip_files_staleness_witness :
    ("zip" = "7z" ∨ "zip" = "zip" ∨ "zip" = "rar" ∨ "zip" = "tar") ∧
    (∃ eff,
      unzip_files_effects "zip"
          { targetExists := true, targetMtime := 7, archiveMtime := 5 } =
        some eff ∧ eff.extractCalls = 0 ∧ eff.deletedStale = false) ∧
    unzip_files_effects "zip"
        { targetExists := true, targetMtime := 7, archiveMtime := 5 } =
      some { deletedStale := false, createdTarget := false, extractCalls := 0 } ∧
    unzip_files_effects "zip"
        { targetExists := false, targetMtime := 0, archiveMtime := 5 } =
      some { deletedStale := false, createdTarget := true, extractCalls := 1 } ∧
    unzip_files_effects "zip"
        { targetExists := true, targetMtime := 3, archiveMtime := 5 } =
      some { deletedStale := true, createdTarget := true, extractCalls := 1 } :=
  ⟨Or.inr (Or.inl rfl),
    by
      obtain ⟨eff, he, h1, _, _⟩ :=
        unzip_files_staleness "zip"
          { targetExists := true, targetMtime := 7, archiveMtime := 5 }
          (Or.inr (Or.inl rfl))
      obtain ⟨hd, _, hc⟩ := h1 rfl (by decide)
      exact ⟨eff, he, hc, hd⟩,
    by decide, by decide, by decide⟩

/-! ## Lemmas about ordered-dictionary insertion -/

theorem insertOD_fresh (k : String) (v : ColStat) :
    ∀ acc : List (String × ColStat), (∀ p ∈ acc, p.1 ≠ k) →
      insertOD k v acc = acc ++ [(k, v)]
  | [], _ => rfl
  | (k1, v1) :: rest, h => by
    rw [insertOD, if_neg (h (k1, v1) (List.mem_cons_self _ _)),
      insertOD_fresh k v rest (fun p hp => h p (List.mem_cons_of_mem _ hp))]
    rfl

theorem foldl_insertOD (top : Nat) (cols : List FrameCol) :
    ∀ acc : List (String × ColStat),
      (∀ c ∈ cols, ∀ p ∈ acc, p.1 ≠ c.name) →
      (cols.map FrameCol.name).Nodup →
      cols.foldl (fun a c => insertOD c.name (colMeta top c) a) acc =
        acc ++ cols.map (fun c => (c.name, colMeta top c)) := by
  induction cols with
  | nil => intro acc _ _; simp
  | cons c rest ih =>
    intro acc hfresh hnodup
    rw [List.foldl_cons,
      insertOD_fresh c.name (colMeta top c) acc
        (fun p hp => hfresh c (List.mem_cons_self _ _) p hp),
      ih (acc ++ [(c.name, colMeta top c)]) ?_ ?_]
    · simp
    · intro c2 hc2 p hp
      rcases List.mem_append.mp hp with h | h
      · exact hfresh c2 (List.mem_cons_of_mem _ hc2) p h
      · have hp1 : p = (c.name, colMeta top c) := List.mem_singleton.mp h
        have h2 := hnodup
        rw [List.map_cons, List.nodup_cons] at h2
        rw [hp1]
        intro hcontra
        have hceq : c.name = c2.name := hcontra
        exact h2.1 (by rw [hceq]; exact List.mem_map_of_mem FrameCol.name hc2)
    · have h2 := hnodup
      rw [List.map_cons, List.nodup_cons] at h2
      exact h2.2

/-- C5, counterexample: a 1-row frame with two columns both labelled `a`
materializes to a `columns` dictionary with a single entry — the second
column's statistics overwrite the first's under the shared key — so
`metadata_frame` does not attach one `ColumnStat` per frame column. -/
theorem metadata_frame_dup_name_collapse :
    frameDupName.cols.length = 2 ∧
    (metadata_frame frameDupName 3 10 [0]).columns =
      some (.stats [("a",
        colMeta 3 { name := "a", dtypeName := "object", kind := 'O',
                    cells := [.str "v"] })]) := by
  exact ⟨rfl, by decide⟩

/-- C5, amended: for every frame whose (stringified) column labels are
pairwise distinct, `metadata_frame` attaches `rows = len(frame)`, one
`ColumnStat` per frame column in column order, `head` equal to the first
`min(preview, rows)` rows, and a `moments` entry exactly for the columns
whose dtype kind is `i` or `f` (duplicate-labelled columns instead
collapse onto one key, the later column overwriting).  In particular the
spec's concrete 2-row CSV scenario holds: `rows = 2`,
`columns['a'].missing = 0`, `columns['a'].nunique = 2` and
`columns['a'].moments.mean = 2`. -/
theorem metadata_frame_spec (data : Frame) (top preview : Nat)
    (sampleSel : List Nat)
    (hnodup : (data.cols.map FrameCol.name).Nodup) :
    ((metadata_frame data top preview sampleSel).rows = some data.nrows ∧
      (metadata_frame data top preview sampleSel).columns =
        some (.stats (data.cols.map (fun c => (c.name, colMeta top c)))) ∧
      (metadata_frame data top preview sampleSel).head =
        some (frameHead data (min preview data.nrows)) ∧
      ∀ c ∈ data.cols,
        ((colMeta top c).moments.isSome ↔ (c.kind = 'i' ∨ c.kind = 'f'))) ∧
    ((metadata_frame frameCsvX 3 10 [0, 1]).rows = some 2 ∧
      ∃ sa sb, (metadata_frame frameCsvX 3 10 [0, 1]).columns =
          some (.stats [("a", sa), ("b", sb)]) ∧
        sa.missing = 0 ∧ sa.nunique = 2 ∧
        ∃ mo, sa.moments = some mo ∧ mo.mean = 2) := by
  constructor
  · refine ⟨rfl, ?_, rfl, ?_⟩
    · have hc : (metadata_frame data top preview sampleSel).columns =
          some (ColumnsVal.stats (data.cols.foldl
            (fun acc c => insertOD c.name (colMeta top c) acc) [])) := rfl
      rw [hc, foldl_insertOD top data.cols []
        (fun c _ p hp => absurd hp (List.not_mem_nil p)) hnodup]
      rfl
    · intro c _
      rw [colMeta]
      by_cases hk : c.kind = 'i' ∨ c.kind = 'f' <;> simp [hk]
  · refine ⟨rfl,
      colMeta 3 { name := "a", dtypeName := "int64", kind := 'i',
                  cells := [.num 1, .num 3] },
      colMeta 3 { name := "b", dtypeName := "int64", kind := 'i',
                  cells := [.num 2, .num 4] },
      rfl, by decide, by decide, describeQ [1, 3], rfl, ?_⟩
    norm_num [describeQ, List.sum_cons, List.sum_nil]

/-- C5, witness for the amended theorem at the spec's concrete frame. -/
theorem metadata_frame_spec_witness :
    (frameCsvX.cols.map FrameCol.name).Nodup ∧
    (metadata_frame frameCsvX 3 10 [0, 1]).rows = some 2 ∧
    (metadata_frame frameCsvX 3 10 [0, 1]).columns =
      some (.stats (frameCsvX.cols.map (fun c => (c.name, colMeta 3 c)))) := by
  have h := metadata_frame_spec frameCsvX 3 10 [0, 1] (by decide)
  exact ⟨by decide, h.1.1, h.1.2.1⟩

/-! ## Lemmas about the deduplication pass -/

theorem orElse_none_meta (x : Option Meta) : (x.orElse fun _ => none) = x := by
  cases x <;> rfl

theorem firstWithSig_append (sig : List String) (l1 l2 : List (String × Meta)) :
    firstWithSig sig (l1 ++ l2) =
      (firstWithSig sig l1).orElse (fun _ => firstWithSig sig l2) := by
  unfold firstWithSig
  rw [List.find?_append]
  rcases h : l1.find? (fun p => decide (metaSig p.2 = some sig)) with _ | p <;>
    rw [h] <;> rfl

theorem firstWithSig_singleton (sig : List String) (k : String) (m : Meta) :
    firstWithSig sig [(k, m)] =
      if metaSig m = some sig then some m else none := by
  by_cases h : metaSig m = some sig <;> simp [firstWithSig, List.find?, h]

theorem withColumns_preserves (cv : ColumnsVal) (m : Meta) :
    (m.withColumns cv).rows = m.rows ∧ (m.withColumns cv).head = m.head ∧
    (m.withColumns cv).sample = m.sample ∧ (m.withColumns cv).name = m.name ∧
    (m.withColumns cv).command = m.command ∧
    (m.withColumns cv).error = m.error := by
  cases m
  exact ⟨rfl, rfl, rfl, rfl, rfl, rfl⟩

/-- The merge loop agrees with the specification resolution, provided the
accumulated `sign_lookup` agrees with first-signature search over the
already-processed prefix. -/
theorem mergeGo_eq_dedupSpec (rest : List (String × Meta)) :
    ∀ (seen : List (List String × Meta)) (prior : List (String × Meta)),
      (∀ p ∈ rest, childWF p.2 = true) →
      (∀ p ∈ prior, childWF p.2 = true) →
      (∀ sig, seen.lookup sig = firstWithSig sig prior) →
      mergeGo seen rest = some (dedupSpec prior rest) := by
  induction rest with
  | nil => intro seen prior _ _ _; rfl
  | cons p rest ih =>
    obtain ⟨k, m⟩ := p
    intro seen prior hrest hprior hinv
    have hm : childWF m = true := hrest (k, m) (List.mem_cons_self _ _)
    have hrest1 : ∀ q ∈ rest, childWF q.2 = true :=
      fun q hq => hrest q (List.mem_cons_of_mem _ hq)
    have hprior1 : ∀ q ∈ prior ++ [(k, m)], childWF q.2 = true := by
      intro q hq
      rcases List.mem_append.mp hq with h | h
      · exact hprior q h
      · rw [List.mem_singleton.mp h]; exact hm
    rcases hcol : m.columns with _ | cv
    · have hmsig : metaSig m = none := by rw [metaSig, hcol]
      have hres : resolveChild prior m = m := by
        simp only [resolveChild, hmsig]
      have hinv1 : ∀ sig, seen.lookup sig =
          firstWithSig sig (prior ++ [(k, m)]) := by
        intro sig
        rw [firstWithSig_append, firstWithSig_singleton,
          if_neg (by rw [hmsig]; simp), orElse_none_meta]
        exact hinv sig
      simp only [mergeGo, hcol, dedupSpec, hres,
        ih seen (prior ++ [(k, m)]) hrest1 hprior1 hinv1]
    · rcases cv with entries | r
      · have hmsig : metaSig m = some (entries.map (fun p => p.2.name)) := by
          rw [metaSig, hcol]
        rcases hlk : seen.lookup (entries.map (fun p => p.2.name)) with _ | first
        · have hfw : firstWithSig (entries.map (fun p => p.2.name)) prior =
              none := by rw [← hinv, hlk]
          have hres : resolveChild prior m = m := by
            simp only [resolveChild, hmsig, hfw]
          have hinv1 : ∀ sig',
              ((entries.map (fun p => p.2.name), m) :: seen).lookup sig' =
                firstWithSig sig' (prior ++ [(k, m)]) := by
            intro sig'
            rw [firstWithSig_append, firstWithSig_singleton]
            by_cases hss : entries.map (fun p => p.2.name) = sig'
            · subst hss
              rw [hfw]
              simp [List.lookup, Option.orElse, hmsig]
            · have hbeq : (sig' == entries.map (fun p => p.2.name)) = false := by
                simp [beq_iff_eq]
                exact fun h => hss h.symm
              rw [if_neg (by rw [hmsig]; simpa using hss),
                orElse_none_meta]
              simp only [List.lookup, hbeq]
              exact hinv sig'
          simp only [mergeGo, hcol, sigOfColumns, hlk, dedupSpec, hres,
            ih _ (prior ++ [(k, m)]) hrest1 hprior1 hinv1]
        · have hfw : firstWithSig (entries.map (fun p => p.2.name)) prior =
              some first := by rw [← hinv, hlk]
          obtain ⟨q, hq, hq2⟩ : ∃ q,
              prior.find? (fun p => decide (metaSig p.2 =
                some (entries.map (fun p => p.2.name)))) = some q ∧
              q.2 = first := by
            unfold firstWithSig at hfw
            rcases hh : prior.find? _ with _ | q
            · rw [hh] at hfw
              exact absurd hfw (by simp)
            · rw [hh] at hfw
              exact ⟨q, rfl, by simpa using hfw⟩
          have hsig_first : metaSig first =
              some (entries.map (fun p => p.2.name)) := by
            have hpq := List.find?_some hq
            rw [← hq2]
            exact of_decide_eq_true hpq
          have hwf_first : childWF first = true := by
            rw [← hq2]
            exact hprior q (List.mem_of_find?_eq_some hq)
          obtain ⟨nm, hnm⟩ : ∃ nm, first.name = some nm := by
            rcases hcf : first.columns with _ | cvf
            · rw [metaSig, hcf] at hsig_first
              exact absurd hsig_first (by simp)
            · rcases hn : first.name with _ | nm
              · rw [childWF, hcf, hn] at hwf_first
                rcases cvf <;> simp at hwf_first
              · exact ⟨nm, rfl⟩
          have hres : resolveChild prior m = m.withColumns (.see nm) := by
            simp only [resolveChild, hmsig, hfw, hnm, Option.getD_some]
          have hinv1 : ∀ sig', seen.lookup sig' =
              firstWithSig sig' (prior ++ [(k, m)]) := by
            intro sig'
            rw [firstWithSig_append, firstWithSig_singleton]
            by_cases hss : entries.map (fun p => p.2.name) = sig'
            · subst hss
              rw [hfw, hlk]
              rfl
            · rw [if_neg (by rw [hmsig]; simpa using hss),
                orElse_none_meta]
              exact hinv sig'
          simp only [mergeGo, hcol, sigOfColumns, hlk, hnm, dedupSpec, hres,
            ih seen (prior ++ [(k, m)]) hrest1 hprior1 hinv1]
      · rw [childWF, hcol] at hm
        simp at hm

/-- C3: on a container whose materialized children are well formed (their
`columns` are genuine statistics mappings and carry `name`s — true of
every freshly materialized tree), the merge pass walks children in
iteration order and equals the claim's description: every child whose
ordered column-name tuple equals that of an earlier sibling in the same
container has its `columns` replaced wholesale by a single back-reference
naming the first sibling with that signature; children without columns
are untouched, the first carrier keeps its statistics, and every resolved
child keeps its own `rows`, `head`, `sample`, `name`, `command` and
`error`.  The pass is a function of one container's children only, so
signatures are never compared across containers. -/
theorem mergeChildren_dedup (cs : List (String × Meta))
    (hwf : ∀ p ∈ cs, childWF p.2 = true) :
    mergeChildren cs = some (dedupSpec [] cs) ∧
    (∀ prior m, (resolveChild prior m).rows = m.rows ∧
      (resolveChild prior m).head = m.head ∧
      (resolveChild prior m).sample = m.sample ∧
      (resolveChild prior m).name = m.name ∧
      (resolveChild prior m).command = m.command ∧
      (resolveChild prior m).error = m.error) ∧
    (∀ prior m, m.columns = none → resolveChild prior m = m) := by
  refine ⟨mergeGo_eq_dedupSpec cs [] [] hwf (by simp) (fun sig => rfl),
    ?_, ?_⟩
  · intro prior m
    rcases h : metaSig m with _ | sig
    · simp [resolveChild, h]
    · rcases h2 : firstWithSig sig prior with _ | first
      · simp [resolveChild, h, h2]
      · simp only [resolveChild, h, h2]
        exact withColumns_preserves _ m
  · intro prior m hcol
    simp only [resolveChild, metaSig, hcol]

/-- C3, witness: three siblings sharing the column tuple `(x, y)`: the
second and third end with a `see` reference to the first, which keeps its
full statistics. -/
theorem mergeChildren_dedup_witness :
    (∀ p ∈ sibsXY, childWF p.2 = true) ∧
    mergeChildren sibsXY = some (dedupSpec [] sibsXY) ∧
    dedupSpec [] sibsXY =
      [("t1", childXY "t1"),
       ("t2", (childXY "t2").withColumns (.see "t1")),
       ("t3", (childXY "t3").withColumns (.see "t1"))] :=
  ⟨by decide, (mergeChildren_dedup sibsXY (by decide)).1, by rfl⟩

/-! ## Lemmas about the encoding fallback -/

theorem read_encoded_first_success
    (attempt : String → Except String (List Frame)) (enc : String)
    (peek : Frame) (more : List Frame)
    (hok : attempt enc = .ok (peek :: more)) :
    ∀ (pre post : List String) (err : Option String),
      (∀ e ∈ pre, (∃ msg, attempt e = .error msg) ∨ attempt e = .ok []) →
      read_encoded_chunked attempt (pre ++ enc :: post) err =
        .ok (peek :: more) := by
  intro pre
  induction pre with
  | nil =>
    intro post err _
    simp only [List.nil_append, read_encoded_chunked, hok]
  | cons p rest ih =>
    intro post err hfail
    have hrest : ∀ e ∈ rest,
        (∃ msg, attempt e = .error msg) ∨ attempt e = .ok [] :=
      fun e he => hfail e (List.mem_cons_of_mem _ he)
    rcases hfail p (List.mem_cons_self _ _) with ⟨msg, hmsg⟩ | hempty
    · simp only [List.cons_append, read_encoded_chunked, hmsg]
      exact ih post (some msg) hrest
    · simp only [List.cons_append, read_encoded_chunked, hempty]
      exact ih post (some "StopIteration") hrest

theorem read_encoded_all_fail
    (attempt : String → Except String (List Frame)) :
    ∀ (encs : List String) (err : Option String),
      (∀ e ∈ encs, (∃ msg, attempt e = .error msg) ∨ attempt e = .ok []) →
      ∃ msg, read_encoded_chunked attempt encs err = .error msg := by
  intro encs
  induction encs with
  | nil =>
    intro err _
    rcases err with _ | e
    · exact ⟨"UnboundLocalError", rfl⟩
    · exact ⟨e, rfl⟩
  | cons p rest ih =>
    intro err hfail
    have hrest : ∀ e ∈ rest,
        (∃ msg, attempt e = .error msg) ∨ attempt e = .ok [] :=
      fun e he => hfail e (List.mem_cons_of_mem _ he)
    rcases hfail p (List.mem_cons_self _ _) with ⟨msg, hmsg⟩ | hempty
    · simp only [read_encoded_chunked, hmsg]
      exact ih (some msg) hrest
    · simp only [read_encoded_chunked, hempty]
      exact ih (some "StopIteration") hrest

/-- C9: the encoding-fallback reader tries exactly `cp1252`, `utf-8`,
`utf-16-le`, `utf-16-be` in that order; it returns the result of the
first encoding whose parse neither raises nor yields an empty chunk
iterator — for a chunked read the peeked first chunk is chained back, so
the returned sequence still includes it; and when every encoding fails it
raises rather than returning a value. -/
theorem read_encoded_spec (attempt : String → Except String (List Frame)) :
    defaultEncodings = ["cp1252", "utf-8", "utf-16-le", "utf-16-be"] ∧
    (∀ pre enc post peek more,
      defaultEncodings = pre ++ enc :: post →
      (∀ e ∈ pre, (∃ msg, attempt e = .error msg) ∨ attempt e = .ok []) →
      attempt enc = .ok (peek :: more) →
      read_encoded_run attempt = .ok (peek :: more)) ∧
    ((∀ e ∈ defaultEncodings,
        (∃ msg, attempt e = .error msg) ∨ attempt e = .ok []) →
      ∃ msg, read_encoded_run attempt = .error msg) := by
  refine ⟨rfl, ?_, ?_⟩
  · intro pre enc post peek more hsplit hfail hok
    rw [read_encoded_run, hsplit]
    exact read_encoded_first_success attempt enc peek more hok pre post
      none hfail
  · intro hfail
    exact read_encoded_all_fail attempt defaultEncodings none hfail

/-- C9, witness: with cp1252 raising and utf-8 succeeding, the utf-8
result is returned with its first chunk intact. -/
theorem read_encoded_spec_witness :
    (defaultEncodings =
        ["cp1252"] ++ "utf-8" :: ["utf-16-le", "utf-16-be"] ∧
      (∀ e ∈ ["cp1252"],
        (∃ msg, attemptUtf8 e = .error msg) ∨ attemptUtf8 e = .ok []) ∧
      attemptUtf8 "utf-8" = .ok (frameCsvX :: [])) ∧
    read_encoded_run attemptUtf8 = .ok (frameCsvX :: []) := by
  have hfail : ∀ e ∈ ["cp1252"],
      (∃ msg, attemptUtf8 e = .error msg) ∨ attemptUtf8 e = .ok [] := by
    intro e he
    rw [List.mem_singleton.mp he]
    exact Or.inl ⟨"UnicodeDecodeError", rfl⟩
  exact ⟨⟨rfl, hfail, rfl⟩,
    (read_encoded_spec attemptUtf8).2.1 ["cp1252"] "utf-8"
      ["utf-16-le", "utf-16-be"] frameCsvX [] rfl hfail rfl⟩

/-! ## Lemmas about tree construction and materialization -/

theorem withError_error (m : Meta) (e : String) :
    (m.withError e).error = some e := by cases m; rfl

theorem withError_name (m : Meta) (e : String) :
    (m.withError e).name = m.name := by cases m; rfl

theorem withError_datasets (m : Meta) (e : String) :
    (m.withError e).datasets = m.datasets := by cases m; rfl

theorem setDatasets_datasets (m : Meta) (ds : List (String × Meta)) :
    (m.setDatasets ds).datasets = ds := by cases m; rfl

theorem buildDirForest_length (tables : Option (List String)) :
    ∀ cs : List (String × String × FileDesc),
      (buildDirForest tables cs).length = cs.length
  | [] => rfl
  | (n, src, d) :: rest => by
    simp only [buildDirForest, List.length_cons,
      buildDirForest_length tables rest]

theorem buildArchForest_length (tables : Option (List String)) :
    ∀ cs : List (String × FileDesc),
      (buildArchForest tables cs).length = cs.length
  | [] => rfl
  | (n, d) :: rest => by
    simp only [buildArchForest, List.length_cons,
      buildArchForest_length tables rest]

theorem buildDirForest_getElem (tables : Option (List String)) :
    ∀ (cs : List (String × String × FileDesc)) (i : Nat) (n src : String)
      (d : FileDesc), cs[i]? = some (n, src, d) →
      (buildDirForest tables cs)[i]? = some (n,
        match buildTree tables d with
        | .ok sub => (dirChildBase n src).update sub
        | .error e => (dirChildBase n src).withError e) := by
  intro cs
  induction cs with
  | nil => intro i n src d h; simp at h
  | cons p rest ih =>
    obtain ⟨n0, src0, d0⟩ := p
    intro i n src d h
    rcases i with _ | i
    · simp only [List.getElem?_cons_zero, Option.some.injEq] at h
      obtain ⟨rfl, rfl, rfl⟩ := h
      simp only [buildDirForest, List.getElem?_cons_zero]
    · simp only [List.getElem?_cons_succ] at h
      simp only [buildDirForest, List.getElem?_cons_succ]
      exact ih i n src d h

theorem buildArchForest_getElem (tables : Option (List String)) :
    ∀ (cs : List (String × FileDesc)) (i : Nat) (n : String) (d : FileDesc),
      cs[i]? = some (n, d) →
      (buildArchForest tables cs)[i]? = some (n,
        match buildTree tables d with
        | .ok sub => (archChildBase n).update sub
        | .error e => (archChildBase n).withError e) := by
  intro cs
  induction cs with
  | nil => intro i n d h; simp at h
  | cons p rest ih =>
    obtain ⟨n0, d0⟩ := p
    intro i n d h
    rcases i with _ | i
    · simp only [List.getElem?_cons_zero, Option.some.injEq] at h
      obtain ⟨rfl, rfl⟩ := h
      simp only [buildArchForest, List.getElem?_cons_zero]
    · simp only [List.getElem?_cons_succ] at h
      simp only [buildArchForest, List.getElem?_cons_succ]
      exact ih i n d h

theorem materializeForest_eq_map
    (oracle : List String → Except String (Frame × List Nat))
    (top preview : Nat) :
    ∀ ds : List (String × Meta),
      materializeForest oracle top preview ds =
        ds.map (fun p => (p.1, materializeTree oracle top preview p.2))
  | [] => rfl
  | (n, m) :: rest => by
    simp only [materializeForest, List.map_cons,
      materializeForest_eq_map oracle top preview rest]

/-- C4: (a) building a directory node never fails, produces one child per
walked file in order, stores a recursion failure as `error` on exactly the
failing child (leaving its name in place), and fills every child whose
recursion succeeds; (b) the same for a multi-file or compressed archive;
(c) the materialization walk maps every child independently, so a reader
failure on one node cannot disturb its siblings; (d) a node whose command
names a known reader and whose read raises ends with exactly that error
string, keeping its name and children. -/
theorem metadata_error_isolation (tables : Option (List String))
    (children : List (String × String × FileDesc))
    (members : List (String × FileDesc))
    (oracle : List String → Except String (Frame × List Nat))
    (top preview : Nat) :
    (∃ node, buildTree tables (.dirD children) = .ok node ∧
      node.hasDatasets = true ∧
      node.datasets.length = children.length ∧
      ∀ (i : Nat) (n src : String) (d : FileDesc),
        children[i]? = some (n, src, d) →
        (∀ msg, d = .raises msg →
          node.datasets[i]? =
            some (n, (dirChildBase n src).withError msg)) ∧
        (∀ sub, buildTree tables d = .ok sub →
          node.datasets[i]? = some (n, (dirChildBase n src).update sub))) ∧
    (∀ fmt, fmt = "7z" ∨ fmt = "zip" ∨ fmt = "rar" ∨ fmt = "tar" ∨
        fmt = "xz" ∨ fmt = "gz" ∨ fmt = "bz2" →
      ∃ node, buildTree tables (.archiveD fmt members) = .ok node ∧
        node.hasDatasets = true ∧
        node.datasets.length = members.length ∧
        ∀ (i : Nat) (n : String) (d : FileDesc), members[i]? = some (n, d) →
          (∀ msg, d = .raises msg →
            node.datasets[i]? = some (n, (archChildBase n).withError msg)) ∧
          (∀ sub, buildTree tables d = .ok sub →
            node.datasets[i]? = some (n, (archChildBase n).update sub))) ∧
    (∀ s n f e c r col h sa hd ds,
      (materializeTree oracle top preview
          (.node s n f e c r col h sa hd ds)).datasets =
        ds.map (fun p => (p.1, materializeTree oracle top preview p.2))) ∧
    (∀ m kind args msg, m.command = some (kind :: args) →
      previewKinds.contains kind = true →
      oracle (kind :: args) = .error msg →
      (materializeNode oracle top preview m).error = some msg ∧
      (materializeNode oracle top preview m).name = m.name ∧
      (materializeNode oracle top preview m).datasets = m.datasets) := by
  refine ⟨?_, ?_, ?_, ?_⟩
  · refine ⟨_, rfl, rfl, buildDirForest_length tables children, ?_⟩
    intro i n src d h
    constructor
    · intro msg hd
      subst hd
      have := buildDirForest_getElem tables children i n src (.raises msg) h
      simpa using this
    · intro sub hsub
      have := buildDirForest_getElem tables children i n src d h
      rw [hsub] at this
      simpa using this
  · intro fmt hfmt
    have hif : (fmt = "7z" ∨ fmt = "zip" ∨ fmt = "rar" ∨ fmt = "tar" ∨
        fmt = "xz" ∨ fmt = "gz" ∨ fmt = "bz2") := hfmt
    refine ⟨.node none none (some fmt) none none none none none none true
      (buildArchForest tables members), ?_, rfl,
      buildArchForest_length tables members, ?_⟩
    · simp only [buildTree, if_pos hif]
    · intro i n d h
      constructor
      · intro msg hd
        subst hd
        have := buildArchForest_getElem tables members i n (.raises msg) h
        simpa using this
      · intro sub hsub
        have := buildArchForest_getElem tables members i n d h
        rw [hsub] at this
        simpa using this
  · intro s n f e c r col h sa hd ds
    simp only [materializeTree, setDatasets_datasets,
      materializeForest_eq_map]
  · intro m kind args msg hcmd hkind horacle
    simp only [materializeNode, hcmd, hkind, if_true, horacle]
    exact ⟨withError_error m msg, withError_name m msg,
      withError_datasets m msg⟩

/-- C4, witness: a directory with one unreadable member and one valid CSV
builds a two-child node, and a node whose read raises records exactly
that error. -/
theorem metadata_error_isolation_witness :
    (∃ node, buildTree none (.dirD exDirChildren) = .ok node ∧
      node.datasets.length = exDirChildren.length) ∧
    exCsvNode.command = some ("csv" :: ["/d/good.csv"]) ∧
    previewKinds.contains "csv" = true ∧
    exOracle ("csv" :: ["/d/good.csv"]) = .error "read failure" ∧
    (materializeNode exOracle 3 10 exCsvNode).error = some "read failure" := by
  obtain ⟨⟨node, hn, _, hlen, _⟩, _, _, h4⟩ :=
    metadata_error_isolation none exDirChildren [] exOracle 3 10
  exact ⟨⟨node, hn, hlen⟩, rfl, by decide, rfl,
    (h4 exCsvNode "csv" ["/d/good.csv"] "read failure" rfl (by decide)
      rfl).1⟩

/-! ## Lemmas about the command vocabulary -/

theorem commandsForest_map_tableNode (mk : String → List String) :
    ∀ (ts : List String) (cmd : List String),
      cmd ∈ commandsForest (ts.map (fun t => (t, tableNode t (mk t)))) →
      ∃ t, t ∈ ts ∧ cmd = mk t := by
  intro ts
  induction ts with
  | nil => intro cmd h; simp [commandsForest] at h
  | cons t rest ih =>
    intro cmd h
    simp only [List.map_cons, commandsForest] at h
    have hone : commandsOf (tableNode t (mk t)) = [mk t] := rfl
    rw [hone] at h
    rcases List.mem_append.mp h with h1 | h2
    · exact ⟨t, List.mem_cons_self _ _, List.mem_singleton.mp h1⟩
    · obtain ⟨u, hu, he⟩ := ih cmd h2
      exact ⟨u, List.mem_cons_of_mem _ hu, he⟩

theorem commandsOf_update_subset (base sub : Meta)
    (h1 : base.command = none) (h2 : base.datasets = []) :
    ∀ cmd ∈ commandsOf (base.update sub), cmd ∈ commandsOf sub := by
  cases base with
  | node s n f e c r col hh sa hd ds =>
    cases sub with
    | node s2 n2 f2 e2 c2 r2 col2 hh2 sa2 hd2 ds2 =>
      intro cmd hc
      obtain rfl : c = none := h1
      obtain rfl : ds = ([] : List (String × Meta)) := h2
      simp only [Meta.update, commandsOf] at hc ⊢
      rcases c2 with _ | cmd2
      · cases hd2
        · simp [Option.orElse, commandsForest] at hc
        · simpa [Option.orElse] using hc
      · cases hd2
        · simp [Option.orElse, commandsForest] at hc ⊢
          exact Or.inl hc
        · simpa [Option.orElse] using hc

theorem metadata_sql_commands (source : String) (connectable dbNamed : Bool)
    (drivername : String) (schemas : List (String × List String))
    (tableNames : List String) (tables : Option (List String)) (m : Meta)
    (h : metadata_sql source connectable dbNamed drivername schemas
      tableNames tables = .ok m) :
    ∀ cmd ∈ commandsOf m, ∃ t rest, cmd = "sql" :: t :: rest := by
  cases connectable with
  | false =>
    have he : metadata_sql source false dbNamed drivername schemas
        tableNames tables =
        .error ("Cannot process source " ++ source) := rfl
    rw [he] at h
    exact Except.noConfusion h
  | true =>
    cases dbNamed with
    | true =>
      have he : metadata_sql source true true drivername schemas
          tableNames tables =
          .ok (.node none none none none none none none none none true
            ((pickTables tables tableNames).map (fun t =>
              (t, tableNode t ["sql", t, source])))) := rfl
      rw [he] at h
      injection h with h2
      subst h2
      intro cmd hcm
      simp only [commandsOf, List.nil_append] at hcm
      obtain ⟨t, _, rfl⟩ := commandsForest_map_tableNode
        (fun t => ["sql", t, source]) _ cmd hcm
      exact ⟨t, [source], rfl⟩
    | false =>
      have he : metadata_sql source true false drivername schemas
          tableNames tables =
          .ok (.node none none none none none none none none none true
            (schemas.map (fun p =>
              (p.1, .node none (some p.1) (some "sql") none none none none
                none none true
                ((pickTables tables p.2).map (fun t =>
                  (t, tableNode t ["sql", t,
                    rstripSlash source ++ "/" ++
                      (if p.1 = "public" ∧ isPostgres drivername then ""
                       else p.1)]))))))) := rfl
      rw [he] at h
      injection h with h2
      subst h2
      intro cmd hcm
      simp only [commandsOf, List.nil_append] at hcm
      have hforest : ∀ (ss : List (String × List String))
          (cmd : List String),
          cmd ∈ commandsForest (ss.map (fun p =>
            (p.1, Meta.node none (some p.1) (some "sql") none none none
              none none none true
              ((pickTables tables p.2).map (fun t =>
                (t, tableNode t ["sql", t,
                  rstripSlash source ++ "/" ++
                    (if p.1 = "public" ∧ isPostgres drivername then ""
                     else p.1)])))))) →
          ∃ t rest, cmd = "sql" :: t :: rest := by
        intro ss
        induction ss with
        | nil => intro cmd hx; simp [commandsForest] at hx
        | cons q qs ih =>
          intro cmd hx
          simp only [List.map_cons, commandsForest, commandsOf,
            List.nil_append] at hx
          rcases List.mem_append.mp hx with h1 | h2
          · obtain ⟨t, _, rfl⟩ := commandsForest_map_tableNode _ _ cmd h1
            exact ⟨t, [_], rfl⟩
          · exact ih cmd h2
      exact hforest schemas cmd hcm

theorem lookup_of_contains (kind : String)
    (h : previewKinds.contains kind = true) :
    ∃ r, _preview_command.lookup kind = some r := by
  have hmem : kind = "csv" ∨ kind = "dta" ∨ kind = "json" ∨ kind = "sql" ∨
      kind = "xlsx" ∨ kind = "hdf5" := by
    simpa [previewKinds, _preview_command] using h
  rcases hmem with rfl | rfl | rfl | rfl | rfl | rfl
  all_goals exact ⟨_, rfl⟩

mutual

theorem buildTree_commands_good (tables : Option (List String)) :
    ∀ (d : FileDesc) (m : Meta), buildTree tables d = .ok m →
      ∀ cmd ∈ commandsOf m, ∃ kind args, cmd = kind :: args ∧
        previewKinds.contains kind = true
  | .raises msg, m, h => by simp [buildTree] at h
  | .unclassified, m, h => by
    obtain rfl : Meta.empty = m := by simpa [buildTree] using h
    intro cmd hc
    simp [commandsOf, Meta.empty, commandsForest] at hc
  | .dirD children, m, h => by
    obtain rfl : (Meta.node none none (some "dir") none none none none none
        none true (buildDirForest tables children)) = m := by
      simpa [buildTree] using h
    intro cmd hc
    simp only [commandsOf, List.nil_append] at hc
    exact buildDirForest_commands_good tables children cmd hc
  | .archiveD fmt members, m, h => by
    by_cases hf : fmt = "7z" ∨ fmt = "zip" ∨ fmt = "rar" ∨ fmt = "tar" ∨
      fmt = "xz" ∨ fmt = "gz" ∨ fmt = "bz2"
    · simp only [buildTree, if_pos hf, Except.ok.injEq] at h
      obtain rfl := h.symm
      intro cmd hc
      simp only [commandsOf, List.nil_append] at hc
      exact buildArchForest_commands_good tables members cmd hc
    · simp only [buildTree, if_neg hf, Except.ok.injEq] at h
      obtain rfl := h.symm
      intro cmd hc
      simp [commandsOf, commandsForest] at hc
  | .sqliteD path tableNames, m, h => by
    simp only [buildTree] at h
    rcases hs : metadata_sql ("sqlite:///" ++ path) true true "sqlite" []
        tableNames tables with e | sub
    · rw [hs] at h
      simp at h
    · rw [hs] at h
      simp only [Except.ok.injEq] at h
      obtain rfl := h.symm
      intro cmd hc
      have hsubset := commandsOf_update_subset
        (.node none none (some "sqlite3") none none none none none none
          false []) sub rfl rfl cmd hc
      obtain ⟨t, rest, rfl⟩ := metadata_sql_commands _ _ _ _ _ _ _ sub hs
        cmd hsubset
      exact ⟨"sql", t :: rest, rfl, by decide⟩
  | .tablesD fmt path tl, m, h => by
    by_cases hf : fmt = "hdf5" ∨ fmt = "xls" ∨ fmt = "xlsx"
    · simp only [buildTree, if_pos hf, Except.ok.injEq] at h
      obtain rfl := h.symm
      intro cmd hc
      simp only [commandsOf, List.nil_append] at hc
      obtain ⟨t, _, rfl⟩ := commandsForest_map_tableNode
        (fun t => [if fmt = "hdf5" then "hdf5" else "xlsx", path, t]) _
        cmd hc
      refine ⟨if fmt = "hdf5" then "hdf5" else "xlsx", [path, t], rfl, ?_⟩
      by_cases hh : fmt = "hdf5" <;> simp [hh] <;> decide
    · simp only [buildTree, if_neg hf, Except.ok.injEq] at h
      obtain rfl := h.symm
      intro cmd hc
      simp [commandsOf, commandsForest] at hc
  | .leafD fmt path, m, h => by
    simp only [buildTree, Except.ok.injEq] at h
    obtain rfl := h.symm
    intro cmd hc
    by_cases hf : fmt = "csv" ∨ fmt = "json" ∨ fmt = "dta"
    · simp only [commandsOf, if_pos hf, commandsForest,
        List.append_nil] at hc
      obtain rfl := List.mem_singleton.mp hc
      refine ⟨fmt, [path], rfl, ?_⟩
      rcases hf with rfl | rfl | rfl <;> decide
    · simp only [commandsOf, if_neg hf, commandsForest] at hc
      simp at hc

theorem buildDirForest_commands_good (tables : Option (List String)) :
    ∀ (cs : List (String × String × FileDesc)) (cmd : List String),
      cmd ∈ commandsForest (buildDirForest tables cs) →
      ∃ kind args, cmd = kind :: args ∧
        previewKinds.contains kind = true
  | [], cmd, h => by simp [buildDirForest, commandsForest] at h
  | (n, src, d) :: rest, cmd, h => by
    simp only [buildDirForest, commandsForest] at h
    rcases List.mem_append.mp h with h1 | h2
    · rcases hb : buildTree tables d with e | sub
      · simp only [hb] at h1
        simp [dirChildBase, Meta.withError, commandsOf,
          commandsForest] at h1
      · simp only [hb] at h1
        have hsubset := commandsOf_update_subset (dirChildBase n src) sub
          rfl rfl cmd h1
        exact buildTree_commands_good tables d sub hb cmd hsubset
    · exact buildDirForest_commands_good tables rest cmd h2

theorem buildArchForest_commands_good (tables : Option (List String)) :
    ∀ (cs : List (String × FileDesc)) (cmd : List String),
      cmd ∈ commandsForest (buildArchForest tables cs) →
      ∃ kind args, cmd = kind :: args ∧
        previewKinds.contains kind = true
  | [], cmd, h => by simp [buildArchForest, commandsForest] at h
  | (n, d) :: rest, cmd, h => by
    simp only [buildArchForest, commandsForest] at h
    rcases List.mem_append.mp h with h1 | h2
    · rcases hb : buildTree tables d with e | sub
      · simp only [hb] at h1
        simp [archChildBase, Meta.withError, commandsOf,
          commandsForest] at h1
      · simp only [hb] at h1
        have hsubset := commandsOf_update_subset (archChildBase n) sub
          rfl rfl cmd h1
        exact buildTree_commands_good tables d sub hb cmd hsubset
    · exact buildArchForest_commands_good tables rest cmd h2

end

/-- C10: every deferred command attached during tree construction — by
file descent or by database introspection — has a first element drawn
from the `_preview_command` vocabulary `{csv, dta, json, sql, xlsx,
hdf5}`, so materialization dispatch is total; legacy `xls` workbooks are
re-tagged so their sheet commands use the `xlsx` reader kind; and the
table's keys are pairwise distinct, so a command matches exactly one
reader. -/
theorem build_commands_total (tables : Option (List String)) :
    (∀ (d : FileDesc) (m : Meta), buildTree tables d = .ok m →
      ∀ cmd ∈ commandsOf m, ∃ kind args, cmd = kind :: args ∧
        previewKinds.contains kind = true ∧
        ∃ r, _preview_command.lookup kind = some r) ∧
    (∀ source connectable dbNamed drivername schemas tableNames m,
      metadata_sql source connectable dbNamed drivername schemas tableNames
        tables = .ok m →
      ∀ cmd ∈ commandsOf m, ∃ t rest, cmd = "sql" :: t :: rest) ∧
    (∀ path tl m, buildTree tables (.tablesD "xls" path tl) = .ok m →
      ∀ cmd ∈ commandsOf m, ∃ t, cmd = ["xlsx", path, t]) ∧
    previewKinds.Nodup := by
  refine ⟨?_, ?_, ?_, by decide⟩
  · intro d m h cmd hc
    obtain ⟨kind, args, rfl, hcont⟩ := buildTree_commands_good tables d m h
      cmd hc
    exact ⟨kind, args, rfl, hcont, lookup_of_contains kind hcont⟩
  · intro source connectable dbNamed drivername schemas tableNames m h
    exact metadata_sql_commands source connectable dbNamed drivername
      schemas tableNames tables m h
  · intro path tl m h cmd hc
    have he : buildTree tables (.tablesD "xls" path tl) =
        .ok (.node none none (some "xls") none none none none none none
          true ((match tables with
            | none => tl
            | some ts => tl.filter (fun t => t ∈ ts)).map (fun t =>
              (t, tableNode t ["xlsx", path, t])))) := rfl
    rw [he] at h
    injection h with h2
    subst h2
    simp only [commandsOf, List.nil_append] at hc
    obtain ⟨t, _, rfl⟩ := commandsForest_map_tableNode
      (fun t => ["xlsx", path, t]) _ cmd hc
    exact ⟨t, rfl⟩

/-- C10, witness: a legacy `xls` workbook with one sheet builds a node
whose only command is `['xlsx', path, sheet]`. -/
theorem build_commands_total_witness :
    buildTree none (.tablesD "xls" "wb.xls" ["Sheet1"]) = .ok xlsNode ∧
    (∀ cmd ∈ commandsOf xlsNode, ∃ t, cmd = ["xlsx", "wb.xls", t]) ∧
    commandsOf xlsNode = [["xlsx", "wb.xls", "Sheet1"]] :=
  ⟨rfl, (build_commands_total none).2.2.1 "wb.xls" ["Sheet1"] xlsNode rfl,
    rfl⟩

/-! ## Lemmas about the cache-naming function -/

theorem hexDigitChar_mem (n : Nat) : hexDigitChar n ∈ hexDigits := by
  rw [hexDigitChar, List.getD_eq_getElem?_getD]
  rcases hx : hexDigits[n]? with _ | c
  · simp only [Option.getD_none]
    decide
  · simp only [Option.getD_some]
    exact List.getElem?_mem hx

theorem md5HexChars_mem (s : String) :
    ∀ c ∈ md5HexChars s, c ∈ hexDigits := by
  intro c hc
  rw [md5HexChars] at hc
  obtain ⟨l, hl, hcl⟩ := List.mem_flatten.mp hc
  obtain ⟨b, _, rfl⟩ := List.mem_map.mp hl
  simp only [byteHex, List.mem_cons, List.not_mem_nil, or_false] at hcl
  rcases hcl with rfl | rfl <;> exact hexDigitChar_mem _

theorem byteHex_flatten_length :
    ∀ l : List Nat, ((l.map byteHex).flatten).length = 2 * l.length
  | [] => rfl
  | b :: rest => by
    simp only [List.map_cons, List.flatten_cons, List.length_append,
      byteHex_flatten_length rest, byteHex, List.length_cons,
      List.length_nil, List.length_singleton]
    omega

theorem md5Digest_length (msg : List Nat) : (md5Digest msg).length = 16 := by
  simp [md5Digest, leBytes4]

theorem md5HexChars_length (s : String) : (md5HexChars s).length = 32 := by
  rw [md5HexChars, byteHex_flatten_length, md5Digest_length]

set_option maxRecDepth 10000 in
/-- C7, counterexample: the naming is not injective — `urlU` and `urlV`
are distinct source identifiers with the same path basename `x` whose MD5
hexdigests agree on their first 10 characters, so `filename` maps both to
`<root>/bf2069a8f8-x`. -/
theorem filename_not_injective :
    urlU ≠ urlV ∧ filename urlU "/cache" = filename urlV "/cache" := by
  constructor
  · decide
  · decide

/-- C7, amended: the cache-naming function maps a source identifier to
`{10-hex-char hash}-{basename}{extension}` under the cache root, and the
naming separates any two identifiers whose truncated hashes differ or
whose `{basename}{extension}` parts differ; it is not injective outright,
since identifiers sharing both collide (see the counterexample). -/
theorem filename_cache_naming (u v root : String)
    (hdiff : urlHash10 u ≠ urlHash10 v ∨ urlNameExt u ≠ urlNameExt v) :
    (filename u root).data =
      root.data ++ '/' :: (urlHash10 u ++ '-' :: urlNameExt u) ∧
    (urlHash10 u).length = 10 ∧
    (∀ c ∈ urlHash10 u, c ∈ hexDigits) ∧
    filename u root ≠ filename v root := by
  refine ⟨rfl, ?_, ?_, ?_⟩
  · rw [urlHash10, List.length_take, md5HexChars_length]
    omega
  · intro c hc
    exact md5HexChars_mem u c (List.take_subset _ _ hc)
  · intro heq
    have hdata : root.data ++ '/' :: (urlHash10 u ++ '-' :: urlNameExt u) =
        root.data ++ '/' :: (urlHash10 v ++ '-' :: urlNameExt v) := by
      have h0 := congrArg String.data heq
      simpa [filename] using h0
    have h1 := List.append_cancel_left hdata
    have h2 : urlHash10 u ++ '-' :: urlNameExt u =
        urlHash10 v ++ '-' :: urlNameExt v := by
      injection h1
    have hlen : (urlHash10 u).length = (urlHash10 v).length := by
      rw [urlHash10, urlHash10, List.length_take, List.length_take,
        md5HexChars_length, md5HexChars_length]
    obtain ⟨hh, ht⟩ := List.append_inj h2 hlen
    have hne2 : urlNameExt u = urlNameExt v := by injection ht
    rcases hdiff with hd | hd
    · exact hd hh
    · exact hd hne2

/-- C7, witness for the amended theorem: two URLs with different
basenames map to different cache names. -/
theorem filename_cache_naming_witness :
    (urlHash10 "http://a/x.csv" ≠ urlHash10 "http://a/y.csv" ∨
      urlNameExt "http://a/x.csv" ≠ urlNameExt "http://a/y.csv") ∧
    filename "http://a/x.csv" "/cache" ≠
      filename "http://a/y.csv" "/cache" := by
  have hd : urlNameExt "http://a/x.csv" ≠ urlNameExt "http://a/y.csv" := by
    decide
  exact ⟨Or.inr hd,
    (filename_cache_naming "http://a/x.csv" "http://a/y.csv" "/cache"
      (Or.inr hd)).2.2.2⟩

/-- C6: at a concrete state where the target path is absent and the server
answers 200 with a non-empty body, `fetch` performs the request and writes
the body, but returns `None` — contradicting its own docstring ("Returns
the path") and the specified contract `fetch(url, target_path) ->
target_path`.  The other two legs of the contract do hold: a fresh target
short-circuits with no request and no write, and a non-success status
writes nothing. -/
theorem fetch_download_returns_none :
    (fetch fetchDownloadState).requested = true ∧
    (fetch fetchDownloadState).written = some [0x61, 0x2c, 0x62] ∧
    (fetch fetchDownloadState).returned = none ∧
    (fetch fetchFreshState).returned = some "path" ∧
    (fetch fetchFreshState).requested = false ∧
    (fetch fetchFreshState).written = none ∧
    (fetch fetchFailState).written = none := by
  decide

end Autolysis
